import Mathlib

/-!
Verification of the session-scoped upload store of the pixelprompt server
(server.js).  The server keeps an in-memory JS Map from session id to a
session record, stores uploaded files under uploads/<timestamp folder>/
with sequential names image_<n><ext>, and exposes endpoints to fetch,
clear, and rotate a session plus an hourly idle sweep.

Modelling conventions:
* A JS Map is an association list in insertion order (set replaces in
  place, delete removes, append on new key).
* The uploads directory is an association list from directory path to the
  list of file names in it, in creation order.  Writing an existing name
  overwrites the file in place (the name list is unchanged); writing a
  new name appends it.  Writes are modelled atomically: an upload aborted
  by the size limit leaves no (partial) file behind, and multer removes
  the already-completed files of a failed request.
* fs.unlinkSync may fail (e.g. permissions); the set of full paths whose
  unlink throws is part of the state (badPaths).  The server only ever
  observes such failures through try/catch.
* Wall-clock readings are a DateTime value carrying the epoch
  milliseconds (used for comparisons; the ISO-8601 strings the server
  stores round-trip to the same instant) together with the UTC components
  returned by the JS Date getters (getUTCMonth is 0-based).
* The multer pipeline (upload.array with diskStorage) is modelled per its
  documented behaviour: for each incoming file, in request order, the
  file-count limit is checked first, then fileFilter, then the
  destination and filename callbacks run and the file is written; on any
  error the files already written for the request are removed and the
  error goes to the Express error middleware.
-/

/-- Lookup in a JS Map modelled as an association list. -/
def mapGet {α : Type} : List (String × α) → String → Option α
  | [], _ => none
  | e :: rest, k => if e.1 = k then some e.2 else mapGet rest k

/-- JS Map.has. -/
def mapHas {α : Type} (m : List (String × α)) (k : String) : Bool :=
  (mapGet m k).isSome

/-- JS Map.set: replace the value in place if the key is present,
otherwise append the new entry at the end (insertion order). -/
def mapSet {α : Type} : List (String × α) → String → α → List (String × α)
  | [], k, v => [(k, v)]
  | e :: rest, k, v => if e.1 = k then (k, v) :: rest else e :: mapSet rest k v

/-- JS Map.delete: remove the entry for the key. -/
def mapDelete {α : Type} (m : List (String × α)) (k : String) : List (String × α) :=
  m.filter (fun e => !(e.1 = k : Bool))

/-- path.join for the simple two-segment paths the server builds. -/
def pathJoin (a b : String) : String := a ++ "/" ++ b

/-- JS String.prototype.startsWith: prefix test on the characters. -/
def jsStartsWith (s p : String) : Bool := p.data.isPrefixOf s.data

/-- String.prototype.padStart with a pad character. -/
def padStart (s : String) (len : Nat) (c : Char) : String :=
  String.mk (List.replicate (len - s.length) c) ++ s

/-- Wall-clock reading: epoch milliseconds plus the UTC components the JS
Date getters return (month 0-based as in getUTCMonth).  The components
are carried as data; no consistency between them and epochMillis is
needed by the server code. -/
structure DateTime where
  epochMillis : Int
  year : Nat
  month : Nat
  day : Nat
  hours : Nat
  minutes : Nat
  seconds : Nat
  milliseconds : Nat
deriving Repr, DecidableEq

/-- generateTimestampFolder: Zulu-time folder name
YYYY-MM-DD HH:MM:SS:mmm built from the UTC components. -/
def generateTimestampFolder (now : DateTime) : String :=
  Nat.repr now.year ++ "-" ++ padStart (Nat.repr (now.month + 1)) 2 '0' ++ "-" ++
    padStart (Nat.repr now.day) 2 '0' ++ " " ++
    padStart (Nat.repr now.hours) 2 '0' ++ ":" ++
    padStart (Nat.repr now.minutes) 2 '0' ++ ":" ++
    padStart (Nat.repr now.seconds) 2 '0' ++ ":" ++
    padStart (Nat.repr now.milliseconds) 3 '0'

/-- Suffix of a character list starting at its last dot, if any. -/
def afterLastDot : List Char → Option (List Char)
  | [] => none
  | c :: rest =>
    match afterLastDot rest with
    | some suf => some suf
    | none => if c = '.' then some (c :: rest) else none

/-- Characters of the basename: the part after the last slash. -/
def basenameChars : List Char → List Char
  | [] => []
  | c :: rest =>
    if '/' ∈ rest then basenameChars rest
    else if c = '/' then rest else c :: rest

/-- path.extname: extension of the basename, i.e. the suffix from the
last dot, empty when there is no dot, when the only dot is the leading
character of the basename, or for the special basename "..". -/
def extname (s : String) : String :=
  let b := basenameChars s.data
  if b = ['.', '.'] then ""
  else
    match b with
    | [] => ""
    | _ :: rest =>
      match afterLastDot rest with
      | some suf => String.mk suf
      | none => ""

/-- FileRecord: the metadata object the upload endpoint builds for each
stored file and appends to the session. -/
structure FileRecord where
  originalName : String
  filename : String
  path : String
  size : Nat
  mimetype : String
  uploadFolder : String
  sessionId : String
deriving Repr, DecidableEq

/-- SessionRecord: one value of the uploadSessions map.  createdAt and
lastActivity are the instants (epoch milliseconds) of the ISO strings the
server stores. -/
structure SessionRecord where
  currentFolder : String
  uploadedFiles : List FileRecord
  createdAt : Int
  lastActivity : Int
deriving Repr, DecidableEq

/-- Whole-server state: the uploadSessions map, the uploads directory
tree, and the set of full file paths whose unlink throws. -/
structure ServerState where
  uploadSessions : List (String × SessionRecord)
  disk : List (String × List String)
  badPaths : List String
deriving Repr, DecidableEq

/-- fs.existsSync for a directory. -/
def diskHasFolder (st : ServerState) (p : String) : Bool :=
  (mapGet st.disk p).isSome

/-- fs.readdirSync wrapped in the try/catch of the filename callback:
an absent directory reads as the empty listing. -/
def readdirD (st : ServerState) (p : String) : List String :=
  (mapGet st.disk p).getD []

/-- ensureDirectoryExists: fs.mkdirSync when the directory is absent. -/
def ensureDirectoryExists (st : ServerState) (p : String) : ServerState :=
  if diskHasFolder st p then st
  else { st with disk := st.disk ++ [(p, [])] }

/-- Completed file write: overwriting an existing name leaves the
listing unchanged, a new name is appended. -/
def diskWrite (st : ServerState) (p name : String) : ServerState :=
  { st with
    disk := mapSet st.disk p
      (let files := readdirD st p
       if name ∈ files then files else files ++ [name]) }

/-- Remove one name from a directory listing. -/
def diskRemoveFile (st : ServerState) (p name : String) : ServerState :=
  { st with
    disk := mapSet st.disk p ((readdirD st p).filter (fun f => !(f = name : Bool))) }

/-- fs.rmdirSync on an (empty) directory: drop the directory entry. -/
def diskRemoveFolder (st : ServerState) (p : String) : ServerState :=
  { st with disk := st.disk.filter (fun e => !(e.1 = p : Bool)) }

/-- getUploadSession: create the record on first touch (with the
requested folder when that header is truthy, else a fresh timestamp
folder), then always bump lastActivity and store the record back. -/
def getUploadSession (st : ServerState) (sessionId : String)
    (requestedFolder : Option String) (now : DateTime) :
    ServerState × SessionRecord :=
  let base :=
    match mapGet st.uploadSessions sessionId with
    | some s => s
    | none =>
      let timestampFolder :=
        match requestedFolder with
        | some f => if f = "" then generateTimestampFolder now else f
        | none => generateTimestampFolder now
      { currentFolder := timestampFolder
        uploadedFiles := []
        createdAt := now.epochMillis
        lastActivity := now.epochMillis }
  let s := { base with lastActivity := now.epochMillis }
  ({ st with uploadSessions := mapSet st.uploadSessions sessionId s }, s)

/-- cleanupOldSessions: evict every session whose lastActivity instant is
before (now - 24h). -/
def cleanupOldSessions (st : ServerState) (nowMillis : Int) : ServerState :=
  let oneDayAgo := nowMillis - 24 * 60 * 60 * 1000
  { st with
    uploadSessions :=
      st.uploadSessions.filter (fun e => !decide (e.2.lastActivity < oneDayAgo)) }

/-- Request headers relevant to the upload pipeline; a missing header is
none, and the server treats an empty header value as falsy. -/
structure Headers where
  xSessionId : Option String
  xUploadFolder : Option String
deriving Repr, DecidableEq

/-- header value with JS || defaulting (empty string is falsy). -/
def headerOr (h : Option String) (dflt : String) : String :=
  match h with
  | some s => if s = "" then dflt else s
  | none => dflt

/-- One file of an incoming multipart batch. -/
structure IncomingFile where
  originalname : String
  mimetype : String
  size : Nat
deriving Repr, DecidableEq

/-- A req.files entry produced by multer diskStorage. -/
structure MulterFile where
  originalname : String
  filename : String
  path : String
  size : Nat
  mimetype : String
deriving Repr, DecidableEq

/-- Errors the pipeline can surface to the error middleware: the two
MulterError codes produced by the configured limits, or the plain Error
thrown by the fileFilter. -/
inductive UploadError where
  | limitFileSize
  | limitFileCount
  | customError (msg : String)
deriving Repr, DecidableEq

/-- Handling of one incoming file part, count parts having been consumed
already: the files:20 limit aborts the 21st part, then fileFilter rejects
a non-image mimetype, then the destination callback resolves the session
(x-session-id falling back to the literal default) and ensures the
directory, the filename callback scans the directory fresh and assigns
image_<count of image_-prefixed names + 1><extname(original)>, and the
write completes unless the file exceeds the 10 MiB size limit.  Returns
the state, and either the error or the req.files entry together with the
(directory, name) pair of the completed write. -/
def processOneFile (hd : Headers) (now : DateTime) (st : ServerState)
    (count : Nat) (f : IncomingFile) :
    ServerState × Except UploadError (MulterFile × (String × String)) :=
  if 20 ≤ count then (st, Except.error UploadError.limitFileCount)
  else if !(jsStartsWith f.mimetype "image/") then
    (st, Except.error (UploadError.customError "Only image files are allowed!"))
  else
    let sessionId := headerOr hd.xSessionId "default"
    let res := getUploadSession st sessionId hd.xUploadFolder now
    let st1 := res.1
    let sess := res.2
    let uploadPath := pathJoin "uploads" sess.currentFolder
    let st2 := ensureDirectoryExists st1 uploadPath
    let existing := readdirD st2 uploadPath
    let nextNumber := (existing.filter (fun g => jsStartsWith g "image_")).length + 1
    let fname := "image_" ++ Nat.repr nextNumber ++ extname f.originalname
    if 10 * 1024 * 1024 < f.size then
      (st2, Except.error UploadError.limitFileSize)
    else
      (diskWrite st2 uploadPath fname,
       Except.ok ({ originalname := f.originalname, filename := fname,
                    path := pathJoin uploadPath fname, size := f.size,
                    mimetype := f.mimetype }, (uploadPath, fname)))

/-- multer pipeline over the batch, in request order.  count is the
number of file parts already consumed; done the req.files built so far;
written the (directory, name) pairs of completed writes of this request.
The first error aborts the rest of the batch. -/
def processFiles (hd : Headers) (now : DateTime) :
    ServerState → List IncomingFile → Nat → List MulterFile →
    List (String × String) →
    ServerState × List (String × String) ×
      Except UploadError (List MulterFile)
  | st, [], _, done, written => (st, written, Except.ok done)
  | st, f :: rest, count, done, written =>
    match processOneFile hd now st count f with
    | (st1, Except.error e) => (st1, written, Except.error e)
    | (st1, Except.ok (rec, w)) =>
      processFiles hd now st1 rest (count + 1) (done ++ [rec]) (written ++ [w])

/-- multer removeUploadedFiles: unlink every completed write of the
failed request, ignoring unlink errors. -/
def removeUploadedFiles (st : ServerState) (written : List (String × String)) :
    ServerState :=
  written.foldl
    (fun acc w =>
      if pathJoin w.1 w.2 ∈ acc.badPaths then acc
      else diskRemoveFile acc w.1 w.2)
    st

/-- Response of POST /api/upload as observed by the client. -/
structure UploadResp where
  status : Nat
  error : Option String
  files : List FileRecord
  uploadFolder : Option String
  sessionId : Option String
  totalFilesInSession : Option Nat
deriving Repr, DecidableEq

/-- POST /api/upload: run the multer pipeline; on error remove the
written files and answer through the error middleware (400 only for the
two MulterError limit codes, generic 500 otherwise); on success reject
an empty batch, else build the FileRecords, append them to the session
and answer 200. -/
def postUpload (st : ServerState) (hd : Headers) (files : List IncomingFile)
    (now : DateTime) : ServerState × UploadResp :=
  match processFiles hd now st files 0 [] [] with
  | (st1, written, Except.error e) =>
    let st2 := removeUploadedFiles st1 written
    match e with
    | UploadError.limitFileSize =>
      (st2, { status := 400, error := some "File too large", files := [],
              uploadFolder := none, sessionId := none, totalFilesInSession := none })
    | UploadError.limitFileCount =>
      (st2, { status := 400, error := some "Too many files", files := [],
              uploadFolder := none, sessionId := none, totalFilesInSession := none })
    | UploadError.customError _ =>
      (st2, { status := 500, error := some "Internal server error", files := [],
              uploadFolder := none, sessionId := none, totalFilesInSession := none })
  | (st1, _, Except.ok mfiles) =>
    if mfiles.isEmpty then
      (st1, { status := 400, error := some "No files uploaded", files := [],
              uploadFolder := none, sessionId := none, totalFilesInSession := none })
    else
      let sessionId := headerOr hd.xSessionId "default"
      match mapGet st1.uploadSessions sessionId with
      | some sess =>
        let recs := mfiles.map (fun f =>
          { originalName := f.originalname, filename := f.filename,
            path := f.path, size := f.size, mimetype := f.mimetype,
            uploadFolder := sess.currentFolder, sessionId := sessionId })
        let sess2 := { sess with uploadedFiles := sess.uploadedFiles ++ recs }
        ({ st1 with uploadSessions := mapSet st1.uploadSessions sessionId sess2 },
         { status := 200, error := none, files := recs,
           uploadFolder := some sess.currentFolder, sessionId := some sessionId,
           totalFilesInSession := some sess2.uploadedFiles.length })
      | none =>
        (st1, { status := 500, error := some "Upload failed", files := [],
                uploadFolder := none, sessionId := none, totalFilesInSession := none })

/-- Session payload of GET /api/session/:sessionId. -/
structure SessionView where
  sessionId : String
  currentFolder : String
  uploadedFiles : List FileRecord
  createdAt : Int
  lastActivity : Int
  totalFiles : Nat
deriving Repr, DecidableEq

/-- GET /api/session/:sessionId: pure read of the registry; answers the
record when present and a null session otherwise (status 200 in both
cases). -/
def getSession (st : ServerState) (sessionId : String) :
    ServerState × Option SessionView :=
  match mapGet st.uploadSessions sessionId with
  | some s =>
    (st, some { sessionId := sessionId, currentFolder := s.currentFolder,
                uploadedFiles := s.uploadedFiles, createdAt := s.createdAt,
                lastActivity := s.lastActivity,
                totalFiles := s.uploadedFiles.length })
  | none => (st, none)

/-- Unlink the listed names of a directory in order; stop at the first
name whose unlink throws (the surrounding try/catch then skips the rest
of the deletion block).  Returns the state and whether a throw happened. -/
def unlinkLoop : ServerState → String → List String → ServerState × Bool
  | st, _, [] => (st, false)
  | st, p, f :: rest =>
    if pathJoin p f ∈ st.badPaths then (st, true)
    else unlinkLoop (diskRemoveFile st p f) p rest

/-- Deletion block of the clear endpoint: when the folder exists, unlink
every file in it and remove the directory; any throw is caught and the
rest of the block skipped. -/
def tryDeleteFolder (st : ServerState) (folderPath : String) : ServerState :=
  if diskHasFolder st folderPath then
    let files := readdirD st folderPath
    match unlinkLoop st folderPath files with
    | (st1, true) => st1
    | (st1, false) => diskRemoveFolder st1 folderPath
  else st

/-- Response of the clear and rotate endpoints (success flag + status). -/
structure ClearResp where
  status : Nat
  success : Bool
deriving Repr, DecidableEq

/-- POST /api/session/:sessionId/clear: when a record exists, run the
deletion block for its (truthy) currentFolder, then drop the registry
entry; always answer success. -/
def clearSession (st : ServerState) (sessionId : String) :
    ServerState × ClearResp :=
  match mapGet st.uploadSessions sessionId with
  | some s =>
    let st1 :=
      if s.currentFolder = "" then st
      else tryDeleteFolder st (pathJoin "uploads" s.currentFolder)
    ({ st1 with uploadSessions := mapDelete st1.uploadSessions sessionId },
     { status := 200, success := true })
  | none => (st, { status := 200, success := true })

/-- Response of POST /api/session/:sessionId/new-upload. -/
structure RotateResp where
  status : Nat
  success : Bool
  sessionId : String
  currentFolder : String
  uploadedFiles : List FileRecord
  createdAt : Int
deriving Repr, DecidableEq

/-- POST /api/session/:sessionId/new-upload: drop any existing registry
entry, then getUploadSession with no requested folder. -/
def newUploadSession (st : ServerState) (sessionId : String) (now : DateTime) :
    ServerState × RotateResp :=
  let st1 :=
    if mapHas st.uploadSessions sessionId then
      { st with uploadSessions := mapDelete st.uploadSessions sessionId }
    else st
  let (st2, s) := getUploadSession st1 sessionId none now
  (st2, { status := 200, success := true, sessionId := sessionId,
          currentFolder := s.currentFolder, uploadedFiles := [],
          createdAt := s.createdAt })

/-- Preservation of the session records of a state: every record still
present keeps its folder, file list and creation time (only lastActivity
may differ). -/
def sessionsStable (st st2 : ServerState) : Prop :=
  ∀ k s, mapGet st.uploadSessions k = some s →
    ∃ t, mapGet st2.uploadSessions k = some t ∧ t.currentFolder = s.currentFolder ∧
      t.uploadedFiles = s.uploadedFiles ∧ t.createdAt = s.createdAt

/-- Status code the error middleware answers for a pipeline error: 400
for the two MulterError limit codes, generic 500 otherwise. -/
def middlewareStatus : UploadError → Nat
  | UploadError.limitFileSize => 400
  | UploadError.limitFileCount => 400
  | UploadError.customError _ => 500

/-- Message the error middleware answers for a pipeline error. -/
def middlewareMessage : UploadError → String
  | UploadError.limitFileSize => "File too large"
  | UploadError.limitFileCount => "Too many files"
  | UploadError.customError _ => "Internal server error"

/-- Decimal value of a digit string (inverse of the rendering). -/
def decDigits (cs : List Char) : Nat :=
  cs.foldl (fun a c => 10 * a + (c.toNat - 48)) 0

/-- Canonical name the filename callback assigns with sequence number m:
image_<m><extname(original)>.  Pure specification formula used to state
the sequential-naming claim. -/
def assignedName (m : Nat) (f : IncomingFile) : String :=
  "image_" ++ Nat.repr m ++ extname f.originalname

/-- Names a batch receives when the directory initially holds m
image_-prefixed files and every write is fresh: image_<m+1>, image_<m+2>, … -/
def assignedNames (m : Nat) : List IncomingFile → List String
  | [] => []
  | f :: rest => assignedName (m + 1) f :: assignedNames (m + 1) rest

/-- The req.files entry the pipeline builds for a file stored with
sequence number m in folder F. -/
def multerRecord (F : String) (m : Nat) (f : IncomingFile) : MulterFile :=
  { originalname := f.originalname, filename := assignedName m f,
    path := pathJoin (pathJoin "uploads" F) (assignedName m f),
    size := f.size, mimetype := f.mimetype }

/-- The req.files entries of a batch stored with fresh sequential names
after m existing image_ files. -/
def multerRecords (F : String) (m : Nat) : List IncomingFile → List MulterFile
  | [] => []
  | f :: rest => multerRecord F (m + 1) f :: multerRecords F (m + 1) rest

/-- Destination folder an upload resolves to: the session's
currentFolder when the session exists, else the folder the created
session gets (the truthy x-upload-folder header or a generated name). -/
def uploadTargetFolder (st : ServerState) (hd : Headers) (now : DateTime) : String :=
  match mapGet st.uploadSessions (headerOr hd.xSessionId "default") with
  | some s => s.currentFolder
  | none => headerOr hd.xUploadFolder (generateTimestampFolder now)

/-- Number of image_-prefixed files in a directory, as the filename
callback counts them. -/
def imageCount (st : ServerState) (p : String) : Nat :=
  ((readdirD st p).filter (fun g => jsStartsWith g "image_")).length

/-! Association-list (JS Map) lemmas. -/

theorem mapGet_mapSet_self {α : Type} (m : List (String × α)) (k : String) (v : α) :
    mapGet (mapSet m k v) k = some v := by
  induction m with
  | nil => simp [mapSet, mapGet]
  | cons e rest ih =>
    by_cases h : e.1 = k
    · simp [mapSet, h, mapGet]
    · simp [mapSet, h, mapGet, ih]

theorem mapGet_mapSet_ne {α : Type} (m : List (String × α)) (k k' : String) (v : α)
    (h : k' ≠ k) : mapGet (mapSet m k v) k' = mapGet m k' := by
  induction m with
  | nil => simp [mapSet, mapGet, Ne.symm h]
  | cons e rest ih =>
    by_cases he : e.1 = k
    · subst he
      simp [mapSet, mapGet, Ne.symm h]
    · by_cases he' : e.1 = k'
      · simp [mapSet, he, mapGet, he', h]
      · simp [mapSet, he, mapGet, he', ih]

theorem mapGet_mapDelete_self {α : Type} (m : List (String × α)) (k : String) :
    mapGet (mapDelete m k) k = none := by
  induction m with
  | nil => simp [mapDelete, mapGet]
  | cons e rest ih =>
    by_cases h : e.1 = k
    · simpa [mapDelete, List.filter, h] using ih
    · simpa [mapDelete, List.filter, h, mapGet] using ih

theorem mapGet_mapDelete_ne {α : Type} (m : List (String × α)) (k k' : String)
    (h : k' ≠ k) : mapGet (mapDelete m k) k' = mapGet m k' := by
  induction m with
  | nil => simp [mapDelete, mapGet]
  | cons e rest ih =>
    by_cases he : e.1 = k
    · simpa [mapDelete, List.filter, he, mapGet, Ne.symm h] using ih
    · by_cases he' : e.1 = k'
      · simp [mapDelete, List.filter, he, mapGet, he', h]
      · simpa [mapDelete, List.filter, he, mapGet, he'] using ih

theorem mapHas_false_iff {α : Type} (m : List (String × α)) (k : String) :
    mapHas m k = false ↔ mapGet m k = none := by
  unfold mapHas
  cases mapGet m k <;> simp

/-- C5: one sweep with the 24-hour TTL keeps exactly the sessions that
are not idle for more than 24 hours (evicting the rest), touches no
other session data, and leaves the disk (and the rest of the state)
unchanged. -/
theorem sweep_idle_spec (st : ServerState) (now : Int) :
    cleanupOldSessions st now =
      { st with uploadSessions := st.uploadSessions.filter (fun e => !decide (24 * 60 * 60 * 1000 < now - e.2.lastActivity)) } := by
  simp only [cleanupOldSessions]
  congr 1
  apply List.filter_congr
  intro e _
  simp only [← decide_not, decide_eq_decide]
  omega

/-- C7: fetching a session is a pure read: the state is unchanged (so
nothing is created and no lastActivity is bumped), and a second
consecutive fetch returns the identical answer. -/
theorem fetch_session_pure (st : ServerState) (sid : String) :
    (getSession st sid).1 = st ∧
    getSession (getSession st sid).1 sid = getSession st sid := by
  cases h : mapGet st.uploadSessions sid <;> simp [getSession, h]

/-- C3: rotation drops any registry entry for the session, recreates it
with a freshly generated timestamp folder and an empty file list, leaves
the disk untouched (so every file of the old folder survives), and a
subsequent fetch reports only the new, empty session. -/
theorem rotate_spec (st : ServerState) (sid : String) (now : DateTime) :
    (newUploadSession st sid now).1.disk = st.disk ∧
    (newUploadSession st sid now).1.badPaths = st.badPaths ∧
    mapGet (newUploadSession st sid now).1.uploadSessions sid =
      some { currentFolder := generateTimestampFolder now, uploadedFiles := [],
             createdAt := now.epochMillis, lastActivity := now.epochMillis } ∧
    (newUploadSession st sid now).2.currentFolder = generateTimestampFolder now ∧
    (newUploadSession st sid now).2.uploadedFiles = [] ∧
    (getSession (newUploadSession st sid now).1 sid).2 =
      some { sessionId := sid, currentFolder := generateTimestampFolder now,
             uploadedFiles := [], createdAt := now.epochMillis,
             lastActivity := now.epochMillis, totalFiles := 0 } := by
  by_cases h : mapHas st.uploadSessions sid
  · simp [newUploadSession, getUploadSession, h, mapGet_mapDelete_self,
      mapGet_mapSet_self, getSession]
  · have h0 : mapGet st.uploadSessions sid = none := (mapHas_false_iff _ _).mp (by simpa using h)
    simp [newUploadSession, getUploadSession, h, h0, mapGet_mapSet_self, getSession]

/-! Clear endpoint lemmas. -/

theorem unlinkLoop_sessions (p : String) (files : List String) :
    ∀ st : ServerState, (unlinkLoop st p files).1.uploadSessions = st.uploadSessions := by
  induction files with
  | nil => intro st; simp [unlinkLoop]
  | cons f rest ih =>
    intro st
    by_cases h : pathJoin p f ∈ st.badPaths
    · simp [unlinkLoop, h]
    · simpa [unlinkLoop, h, diskRemoveFile] using ih (diskRemoveFile st p f)

theorem tryDeleteFolder_sessions (st : ServerState) (p : String) :
    (tryDeleteFolder st p).uploadSessions = st.uploadSessions := by
  unfold tryDeleteFolder
  by_cases h : diskHasFolder st p
  · simp only [h, if_true]
    rcases hu : unlinkLoop st p (readdirD st p) with ⟨st1, b⟩
    have hs : st1.uploadSessions = st.uploadSessions := by
      have := unlinkLoop_sessions p (readdirD st p) st
      rw [hu] at this; exact this
    cases b <;> simp [diskRemoveFolder, hs]
  · simp [h]

theorem unlinkLoop_no_throw (p : String) (files : List String) :
    ∀ st : ServerState, (∀ f ∈ files, pathJoin p f ∉ st.badPaths) →
      (unlinkLoop st p files).2 = false ∧
      (unlinkLoop st p files).1.badPaths = st.badPaths := by
  induction files with
  | nil => intro st _; simp [unlinkLoop]
  | cons f rest ih =>
    intro st h
    have hf : pathJoin p f ∉ st.badPaths := h f (by simp)
    have hrest : ∀ g ∈ rest, pathJoin p g ∉ (diskRemoveFile st p f).badPaths := by
      intro g hg
      simpa [diskRemoveFile] using h g (by simp [hg])
    have := ih (diskRemoveFile st p f) hrest
    simpa [unlinkLoop, hf, diskRemoveFile] using this

theorem tryDeleteFolder_clean (st : ServerState) (p : String)
    (h : ∀ f ∈ readdirD st p, pathJoin p f ∉ st.badPaths) :
    diskHasFolder (tryDeleteFolder st p) p = false := by
  unfold tryDeleteFolder
  by_cases hd : diskHasFolder st p
  · simp only [hd, if_true]
    rcases hu : unlinkLoop st p (readdirD st p) with ⟨st1, b⟩
    have hnt := unlinkLoop_no_throw p (readdirD st p) st h
    rw [hu] at hnt
    have hb : b = false := hnt.1
    subst hb
    simp only [diskHasFolder, diskRemoveFolder]
    have : mapGet (mapDelete st1.disk p) p = none := mapGet_mapDelete_self _ _
    simp only [mapDelete] at this
    simp [this]
  · simp only [Bool.not_eq_true] at hd
    simp [hd]

/-- C4: clearing always answers success, removes the registry entry (so
a fetch afterwards reports no session) even when a file deletion throws,
and, when the record exists with its folder and none of the folder's
files has a failing unlink, the folder and all its files are removed
from disk. -/
theorem clear_spec (st : ServerState) (sid : String) :
    (clearSession st sid).2 = { status := 200, success := true } ∧
    mapGet (clearSession st sid).1.uploadSessions sid = none ∧
    (getSession (clearSession st sid).1 sid).2 = none ∧
    (∀ s : SessionRecord, mapGet st.uploadSessions sid = some s → s.currentFolder ≠ "" →
      (∀ f ∈ readdirD st (pathJoin "uploads" s.currentFolder),
         pathJoin (pathJoin "uploads" s.currentFolder) f ∉ st.badPaths) →
      diskHasFolder (clearSession st sid).1 (pathJoin "uploads" s.currentFolder) = false) := by
  cases h : mapGet st.uploadSessions sid with
  | none =>
    refine ⟨by simp [clearSession, h], by simp [clearSession, h, h], ?_, ?_⟩
    · simp [clearSession, h, getSession]
    · intro s hs; simp at hs
  | some s =>
    have hresp : (clearSession st sid).2 = { status := 200, success := true } := by
      simp [clearSession, h]
    have hgone : mapGet (clearSession st sid).1.uploadSessions sid = none := by
      by_cases hf : s.currentFolder = ""
      · simp [clearSession, h, hf, mapGet_mapDelete_self]
      · simp [clearSession, h, hf, mapGet_mapDelete_self]
    refine ⟨hresp, hgone, by simp [getSession, hgone], ?_⟩
    intro s0 hs0 hf hb
    have hss : s0 = s := (Option.some_inj.mp hs0).symm
    subst hss
    have hdel := tryDeleteFolder_clean st (pathJoin "uploads" s0.currentFolder) hb
    simp only [clearSession, h, hf, if_neg hf]
    simpa [diskHasFolder, mapDelete] using hdel

/-- C4 witness: a concrete session with one stored file: clear answers
success, the registry entry and the folder (with its file) are gone. -/
theorem clear_spec_witness :
    (clearSession ⟨[("s1", ⟨"F", [], 0, 0⟩)], [("uploads/F", ["image_1.png"])], []⟩ "s1").2 =
      { status := 200, success := true } ∧
    mapGet (clearSession ⟨[("s1", ⟨"F", [], 0, 0⟩)], [("uploads/F", ["image_1.png"])], []⟩ "s1").1.uploadSessions "s1" = none ∧
    diskHasFolder (clearSession ⟨[("s1", ⟨"F", [], 0, 0⟩)], [("uploads/F", ["image_1.png"])], []⟩ "s1").1 "uploads/F" = false := by
  have h := clear_spec ⟨[("s1", ⟨"F", [], 0, 0⟩)], [("uploads/F", ["image_1.png"])], []⟩ "s1"
  exact ⟨h.1, h.2.1, h.2.2.2 ⟨"F", [], 0, 0⟩ rfl (by decide) (by decide)⟩

/-- C6 (amended): getUploadSession always bumps lastActivity to now and
stores the returned record; on first touch it creates the record with an
empty file list, createdAt now, and currentFolder the requested folder
when a nonempty one is supplied (an empty requested folder is falsy and
is replaced by a generated timestamp name), else a generated timestamp
name; on an existing record only lastActivity changes. -/
theorem getOrCreate_spec (st : ServerState) (sid : String) (rf : Option String)
    (now : DateTime) :
    (getUploadSession st sid rf now).2.lastActivity = now.epochMillis ∧
    mapGet (getUploadSession st sid rf now).1.uploadSessions sid =
      some (getUploadSession st sid rf now).2 ∧
    (mapGet st.uploadSessions sid = none → rf ≠ some "" →
      (getUploadSession st sid rf now).2 =
        { currentFolder := rf.getD (generateTimestampFolder now), uploadedFiles := [],
          createdAt := now.epochMillis, lastActivity := now.epochMillis }) ∧
    (∀ s : SessionRecord, mapGet st.uploadSessions sid = some s →
      (getUploadSession st sid rf now).2 = { s with lastActivity := now.epochMillis }) := by
  cases h : mapGet st.uploadSessions sid with
  | none =>
    refine ⟨by simp [getUploadSession, h], by simp [getUploadSession, h, mapGet_mapSet_self], ?_, ?_⟩
    · intro _ hrf
      cases rf with
      | none => simp [getUploadSession, h]
      | some f =>
        have hf : f ≠ "" := fun he => hrf (by rw [he])
        simp [getUploadSession, h, hf]
    · intro s hs; simp at hs
  | some s =>
    refine ⟨by simp [getUploadSession, h], by simp [getUploadSession, h, mapGet_mapSet_self], ?_, ?_⟩
    · intro hnone; simp at hnone
    · intro s0 hs0
      rw [← Option.some_inj.mp hs0]
      simp [getUploadSession, h]

/-- C6 witness: first touch with a nonempty requested folder takes that
folder, an empty file list and the current instant. -/
theorem getOrCreate_spec_witness :
    (getUploadSession ⟨[], [], []⟩ "s" (some "G") ⟨1000, 2024, 0, 2, 3, 4, 5, 6⟩).2 =
      { currentFolder := "G", uploadedFiles := [], createdAt := 1000, lastActivity := 1000 } :=
  (getOrCreate_spec ⟨[], [], []⟩ "s" (some "G") ⟨1000, 2024, 0, 2, 3, 4, 5, 6⟩).2.2.1 rfl (by decide)

/-- C6 counterexample: an empty requested folder is supplied but, being
falsy, is not used: the created record gets a generated timestamp folder
instead of the supplied value. -/
theorem getOrCreate_spec_cex :
    mapGet (ServerState.mk [] [] []).uploadSessions "s" = none ∧
    (getUploadSession ⟨[], [], []⟩ "s" (some "") ⟨1000, 2024, 0, 2, 3, 4, 5, 6⟩).2.currentFolder =
      "2024-01-02 03:04:05:006" ∧
    "2024-01-02 03:04:05:006" ≠ "" := by
  refine ⟨rfl, ?_, by decide⟩
  decide

/-! Small step lemmas about the state operations. -/

theorem ensureDirectoryExists_sessions (st : ServerState) (p : String) :
    (ensureDirectoryExists st p).uploadSessions = st.uploadSessions := by
  unfold ensureDirectoryExists; split <;> rfl

theorem ensureDirectoryExists_badPaths (st : ServerState) (p : String) :
    (ensureDirectoryExists st p).badPaths = st.badPaths := by
  unfold ensureDirectoryExists; split <;> rfl

theorem diskWrite_sessions (st : ServerState) (p name : String) :
    (diskWrite st p name).uploadSessions = st.uploadSessions := rfl

theorem diskWrite_badPaths (st : ServerState) (p name : String) :
    (diskWrite st p name).badPaths = st.badPaths := rfl

theorem diskRemoveFile_sessions (st : ServerState) (p name : String) :
    (diskRemoveFile st p name).uploadSessions = st.uploadSessions := rfl

theorem diskRemoveFile_badPaths (st : ServerState) (p name : String) :
    (diskRemoveFile st p name).badPaths = st.badPaths := rfl

theorem getUploadSession_disk (st : ServerState) (sid : String) (rf : Option String)
    (now : DateTime) : (getUploadSession st sid rf now).1.disk = st.disk := rfl

theorem getUploadSession_badPaths (st : ServerState) (sid : String) (rf : Option String)
    (now : DateTime) : (getUploadSession st sid rf now).1.badPaths = st.badPaths := rfl

theorem getUploadSession_sessions_eq (st : ServerState) (sid : String) (rf : Option String)
    (now : DateTime) : (getUploadSession st sid rf now).1.uploadSessions =
      mapSet st.uploadSessions sid (getUploadSession st sid rf now).2 := rfl

theorem mapGet_append_single {α : Type} (m : List (String × α)) (p : String) (v : α)
    (q : String) :
    mapGet (m ++ [(p, v)]) q =
      (match mapGet m q with
       | some x => some x
       | none => if p = q then some v else none) := by
  induction m with
  | nil => simp [mapGet]
  | cons e rest ih => by_cases h : e.1 = q <;> simp [mapGet, h, ih]

theorem readdirD_ensure_mem (st : ServerState) (p q g : String)
    (h : g ∈ readdirD (ensureDirectoryExists st p) q) : g ∈ readdirD st q := by
  unfold ensureDirectoryExists at h
  by_cases hd : diskHasFolder st p
  · rwa [if_pos hd] at h
  · rw [if_neg hd] at h
    unfold readdirD at h ⊢
    rw [show ({ st with disk := st.disk ++ [(p, [])] } : ServerState).disk = st.disk ++ [(p, [])] from rfl,
      mapGet_append_single] at h
    cases hm : mapGet st.disk q with
    | some x => rw [hm] at h; exact h
    | none =>
      rw [hm] at h
      by_cases hpq : p = q
      · simp [hpq] at h
      · simp [hpq] at h

theorem readdirD_diskWrite_self (st : ServerState) (p name : String) :
    readdirD (diskWrite st p name) p =
      (if name ∈ readdirD st p then readdirD st p else readdirD st p ++ [name]) := by
  unfold diskWrite readdirD
  rw [show ({ st with disk := mapSet st.disk p (let files := (mapGet st.disk p).getD []; if name ∈ files then files else files ++ [name]) } : ServerState).disk = mapSet st.disk p (let files := (mapGet st.disk p).getD []; if name ∈ files then files else files ++ [name]) from rfl,
    mapGet_mapSet_self]
  simp

theorem readdirD_diskWrite_ne (st : ServerState) (p name q : String) (h : q ≠ p) :
    readdirD (diskWrite st p name) q = readdirD st q := by
  unfold diskWrite readdirD
  rw [show ({ st with disk := mapSet st.disk p (let files := (mapGet st.disk p).getD []; if name ∈ files then files else files ++ [name]) } : ServerState).disk = mapSet st.disk p (let files := (mapGet st.disk p).getD []; if name ∈ files then files else files ++ [name]) from rfl,
    mapGet_mapSet_ne _ _ _ _ h]

theorem readdirD_diskRemoveFile_self (st : ServerState) (p name : String) :
    readdirD (diskRemoveFile st p name) p =
      (readdirD st p).filter (fun f => !(f = name : Bool)) := by
  unfold diskRemoveFile readdirD
  rw [show ({ st with disk := mapSet st.disk p (((mapGet st.disk p).getD []).filter (fun f => !(f = name : Bool))) } : ServerState).disk = mapSet st.disk p (((mapGet st.disk p).getD []).filter (fun f => !(f = name : Bool))) from rfl,
    mapGet_mapSet_self]
  simp

theorem readdirD_diskRemoveFile_ne (st : ServerState) (p name q : String) (h : q ≠ p) :
    readdirD (diskRemoveFile st p name) q = readdirD st q := by
  unfold diskRemoveFile readdirD
  rw [show ({ st with disk := mapSet st.disk p (((mapGet st.disk p).getD []).filter (fun f => !(f = name : Bool))) } : ServerState).disk = mapSet st.disk p (((mapGet st.disk p).getD []).filter (fun f => !(f = name : Bool))) from rfl,
    mapGet_mapSet_ne _ _ _ _ h]

theorem sessionsStable_of_eq {st st2 : ServerState}
    (h : st.uploadSessions = st2.uploadSessions) : sessionsStable st st2 :=
  fun k s hk => ⟨s, by rw [← h]; exact hk, rfl, rfl, rfl⟩

theorem sessionsStable_refl (st : ServerState) : sessionsStable st st :=
  sessionsStable_of_eq rfl

theorem sessionsStable_trans {a b c : ServerState}
    (h1 : sessionsStable a b) (h2 : sessionsStable b c) : sessionsStable a c := by
  intro k s hk
  obtain ⟨t, ht, hf, hu, hc⟩ := h1 k s hk
  obtain ⟨u, hu2, hf2, huu2, hc2⟩ := h2 k t ht
  exact ⟨u, hu2, hf2.trans hf, huu2.trans hu, hc2.trans hc⟩

theorem getUploadSession_stable (st : ServerState) (sid : String) (rf : Option String)
    (now : DateTime) : sessionsStable st (getUploadSession st sid rf now).1 := by
  intro k s hk
  by_cases hks : k = sid
  · subst hks
    refine ⟨{ s with lastActivity := now.epochMillis }, ?_, rfl, rfl, rfl⟩
    simp [getUploadSession, hk, mapGet_mapSet_self]
  · refine ⟨s, ?_, rfl, rfl, rfl⟩
    rw [getUploadSession_sessions_eq, mapGet_mapSet_ne _ _ _ _ hks]
    exact hk

/-! processOneFile characterizations. -/

theorem processOneFile_count (hd : Headers) (now : DateTime) (st : ServerState)
    (count : Nat) (f : IncomingFile) (h : 20 ≤ count) :
    processOneFile hd now st count f = (st, Except.error UploadError.limitFileCount) := by
  simp [processOneFile, h]

theorem processOneFile_badmime (hd : Headers) (now : DateTime) (st : ServerState)
    (count : Nat) (f : IncomingFile) (h20 : ¬ 20 ≤ count)
    (him : jsStartsWith f.mimetype "image/" = false) :
    processOneFile hd now st count f =
      (st, Except.error (UploadError.customError "Only image files are allowed!")) := by
  simp [processOneFile, h20, him]

theorem processOneFile_oversize (hd : Headers) (now : DateTime) (st : ServerState)
    (count : Nat) (f : IncomingFile) (h20 : ¬ 20 ≤ count)
    (him : jsStartsWith f.mimetype "image/" = true) (hsz : 10 * 1024 * 1024 < f.size) :
    processOneFile hd now st count f =
      (ensureDirectoryExists
         (getUploadSession st (headerOr hd.xSessionId "default") hd.xUploadFolder now).1
         (pathJoin "uploads"
           (getUploadSession st (headerOr hd.xSessionId "default") hd.xUploadFolder now).2.currentFolder),
       Except.error UploadError.limitFileSize) := by
  simp [processOneFile, h20, him, hsz]

theorem processOneFile_ok (hd : Headers) (now : DateTime) (st : ServerState)
    (count : Nat) (f : IncomingFile) (h20 : ¬ 20 ≤ count)
    (him : jsStartsWith f.mimetype "image/" = true) (hsz : ¬ 10 * 1024 * 1024 < f.size) :
    processOneFile hd now st count f =
      (let res := getUploadSession st (headerOr hd.xSessionId "default") hd.xUploadFolder now
       let uploadPath := pathJoin "uploads" res.2.currentFolder
       let st2 := ensureDirectoryExists res.1 uploadPath
       let fname := "image_" ++
         Nat.repr (((readdirD st2 uploadPath).filter (fun g => jsStartsWith g "image_")).length + 1) ++
         extname f.originalname
       (diskWrite st2 uploadPath fname,
        Except.ok ({ originalname := f.originalname, filename := fname,
                     path := pathJoin uploadPath fname, size := f.size,
                     mimetype := f.mimetype }, (uploadPath, fname)))) := by
  simp [processOneFile, h20, him, hsz]

theorem processOneFile_effects (hd : Headers) (now : DateTime) (st : ServerState)
    (count : Nat) (f : IncomingFile) :
    sessionsStable st (processOneFile hd now st count f).1 ∧
    (processOneFile hd now st count f).1.badPaths = st.badPaths ∧
    (∀ q g, g ∈ readdirD (processOneFile hd now st count f).1 q →
      g ∈ readdirD st q ∨
        ∃ rec w, (processOneFile hd now st count f).2 = Except.ok (rec, w) ∧ (q, g) = w) := by
  by_cases h20 : 20 ≤ count
  · rw [processOneFile_count hd now st count f h20]
    exact ⟨sessionsStable_refl st, rfl, fun q g h => Or.inl h⟩
  · by_cases him : jsStartsWith f.mimetype "image/"
    · by_cases hsz : 10 * 1024 * 1024 < f.size
      · rw [processOneFile_oversize hd now st count f h20 him hsz]
        refine ⟨?_, ?_, ?_⟩
        · exact sessionsStable_trans (getUploadSession_stable st _ _ now)
            (sessionsStable_of_eq (ensureDirectoryExists_sessions _ _).symm)
        · rw [ensureDirectoryExists_badPaths, getUploadSession_badPaths]
        · intro q g h
          exact Or.inl (by
            have h1 := readdirD_ensure_mem _ _ _ _ h
            rwa [show readdirD (getUploadSession st (headerOr hd.xSessionId "default") hd.xUploadFolder now).1 q = readdirD st q from rfl] at h1)
      · rw [processOneFile_ok hd now st count f h20 him hsz]
        simp only []
        refine ⟨?_, ?_, ?_⟩
        · exact sessionsStable_trans (getUploadSession_stable st _ _ now)
            (sessionsStable_trans
              (sessionsStable_of_eq (ensureDirectoryExists_sessions _ _).symm)
              (sessionsStable_of_eq (diskWrite_sessions _ _ _).symm))
        · rw [diskWrite_badPaths, ensureDirectoryExists_badPaths, getUploadSession_badPaths]
        · intro q g h
          set res := getUploadSession st (headerOr hd.xSessionId "default") hd.xUploadFolder now with hres
          set uploadPath := pathJoin "uploads" res.2.currentFolder with hup
          set st2 := ensureDirectoryExists res.1 uploadPath with hst2
          set fname := "image_" ++
            Nat.repr (((readdirD st2 uploadPath).filter (fun g => jsStartsWith g "image_")).length + 1) ++
            extname f.originalname with hfn
          by_cases hq : q = uploadPath
          · subst hq
            rw [readdirD_diskWrite_self] at h
            by_cases hmem : fname ∈ readdirD st2 uploadPath
            · rw [if_pos hmem] at h
              exact Or.inl (by
                have h1 := readdirD_ensure_mem res.1 uploadPath uploadPath g h
                rwa [show readdirD res.1 uploadPath = readdirD st uploadPath from rfl] at h1)
            · rw [if_neg hmem] at h
              rcases List.mem_append.mp h with h1 | h1
              · exact Or.inl (by
                  have h2 := readdirD_ensure_mem res.1 uploadPath uploadPath g h1
                  rwa [show readdirD res.1 uploadPath = readdirD st uploadPath from rfl] at h2)
              · have hg : g = fname := List.mem_singleton.mp h1
                exact Or.inr ⟨_, _, rfl, by rw [hg]⟩
          · rw [readdirD_diskWrite_ne _ _ _ _ hq] at h
            exact Or.inl (by
              have h1 := readdirD_ensure_mem res.1 uploadPath q g h
              rwa [show readdirD res.1 q = readdirD st q from rfl] at h1)
    · have him' : jsStartsWith f.mimetype "image/" = false := by
        cases hx : jsStartsWith f.mimetype "image/"
        · rfl
        · exact absurd hx him
      rw [processOneFile_badmime hd now st count f h20 him']
      exact ⟨sessionsStable_refl st, rfl, fun q g h => Or.inl h⟩

/-! Batch-level pipeline lemmas. -/

theorem processFiles_effects (hd : Headers) (now : DateTime) :
    ∀ (fs : List IncomingFile) (st : ServerState) (count : Nat)
      (done : List MulterFile) (written : List (String × String)),
      sessionsStable st (processFiles hd now st fs count done written).1 ∧
      (processFiles hd now st fs count done written).1.badPaths = st.badPaths ∧
      ∃ tail, (processFiles hd now st fs count done written).2.1 = written ++ tail ∧
        (∀ q g, g ∈ readdirD (processFiles hd now st fs count done written).1 q →
          g ∈ readdirD st q ∨ (q, g) ∈ tail) := by
  intro fs
  induction fs with
  | nil =>
    intro st count done written
    exact ⟨sessionsStable_refl st, rfl, [], by simp [processFiles], fun q g h => Or.inl h⟩
  | cons f rest ih =>
    intro st count done written
    obtain ⟨hstab, hbad, hdisk⟩ := processOneFile_effects hd now st count f
    rcases hstep : processOneFile hd now st count f with ⟨st1, r⟩
    rw [hstep] at hstab hbad hdisk
    cases r with
    | error e =>
      refine ⟨by simpa [processFiles, hstep] using hstab,
        by simpa [processFiles, hstep] using hbad, [], by simp [processFiles, hstep], ?_⟩
      intro q g h
      rw [show (processFiles hd now st (f :: rest) count done written).1 = st1 by
        simp [processFiles, hstep]] at h
      rcases hdisk q g h with h1 | ⟨rec, w, habs, _⟩
      · exact Or.inl h1
      · exact absurd habs (by simp)
    | ok rw0 =>
      rcases rw0 with ⟨rec, w⟩
      have hred : processFiles hd now st (f :: rest) count done written =
          processFiles hd now st1 rest (count + 1) (done ++ [rec]) (written ++ [w]) := by
        simp [processFiles, hstep]
      obtain ⟨ihstab, ihbad, tail, htail, ihdisk⟩ :=
        ih st1 (count + 1) (done ++ [rec]) (written ++ [w])
      refine ⟨by rw [hred]; exact sessionsStable_trans hstab ihstab,
        by rw [hred, ihbad, hbad], w :: tail, by rw [hred, htail]; simp, ?_⟩
      intro q g h
      rw [hred] at h
      rcases ihdisk q g h with h1 | h1
      · rcases hdisk q g h1 with h2 | ⟨rec2, w2, hok, hqg⟩
        · exact Or.inl h2
        · have hw : w2 = w := by
            have := Option.some.inj (congrArg (fun x => match x with
              | Except.ok (a, b) => some b
              | Except.error _ => none) hok)
            exact this.symm ▸ rfl
          exact Or.inr (by rw [show (q, g) = w from hw ▸ hqg]; simp)
      · exact Or.inr (by simp [h1])

theorem processFiles_append (hd : Headers) (now : DateTime) :
    ∀ (pre suf : List IncomingFile) (st : ServerState) (count : Nat)
      (done : List MulterFile) (written : List (String × String)),
      processFiles hd now st (pre ++ suf) count done written =
        (match processFiles hd now st pre count done written with
         | (st1, w1, Except.ok d1) =>
           processFiles hd now st1 suf (count + pre.length) d1 w1
         | (st1, w1, Except.error e) => (st1, w1, Except.error e)) := by
  intro pre
  induction pre with
  | nil =>
    intro suf st count done written
    simp [processFiles]
  | cons f pre ih =>
    intro suf st count done written
    rcases hstep : processOneFile hd now st count f with ⟨st1, r⟩
    cases r with
    | error e => simp [processFiles, hstep]
    | ok rw0 =>
      rcases rw0 with ⟨rec, w⟩
      have heq : count + (pre.length + 1) = count + 1 + pre.length := by omega
      simp only [List.cons_append, processFiles, hstep, List.length_cons, heq]
      exact ih suf st1 (count + 1) (done ++ [rec]) (written ++ [w])

theorem processFiles_good (hd : Headers) (now : DateTime) :
    ∀ (fs : List IncomingFile) (st : ServerState) (count : Nat)
      (done : List MulterFile) (written : List (String × String)),
      (∀ f ∈ fs, jsStartsWith f.mimetype "image/" = true ∧ f.size ≤ 10 * 1024 * 1024) →
      count + fs.length ≤ 20 →
      ∃ st' w' nd,
        processFiles hd now st fs count done written = (st', w', Except.ok (done ++ nd)) ∧
        nd.length = fs.length ∧
        (fs = [] → st' = st) ∧
        (fs ≠ [] →
          ∃ sess, mapGet st'.uploadSessions (headerOr hd.xSessionId "default") = some sess) := by
  intro fs
  induction fs with
  | nil =>
    intro st count done written _ _
    exact ⟨st, written, [], by simp [processFiles], rfl, fun _ => rfl, fun h => absurd rfl h⟩
  | cons f rest ih =>
    intro st count done written hgood hcnt
    have h20 : ¬ 20 ≤ count := by
      have := hcnt
      simp only [List.length_cons] at this
      omega
    have him : jsStartsWith f.mimetype "image/" = true := (hgood f (by simp)).1
    have hsz : ¬ 10 * 1024 * 1024 < f.size := by
      have := (hgood f (by simp)).2
      omega
    rw [processFiles, processOneFile_ok hd now st count f h20 him hsz]
    simp only []
    set res := getUploadSession st (headerOr hd.xSessionId "default") hd.xUploadFolder now with hres
    set uploadPath := pathJoin "uploads" res.2.currentFolder with hup
    set st2 := ensureDirectoryExists res.1 uploadPath with hst2
    set fname := "image_" ++
      Nat.repr (((readdirD st2 uploadPath).filter (fun g => jsStartsWith g "image_")).length + 1) ++
      extname f.originalname with hfn
    set st3 := diskWrite st2 uploadPath fname with hst3
    set rec : MulterFile := ⟨f.originalname, fname, pathJoin uploadPath fname, f.size, f.mimetype⟩ with hrec
    obtain ⟨st', w', nd, heq, hlen, hnil, hsess⟩ :=
      ih st3 (count + 1) (done ++ [rec]) (written ++ [(uploadPath, fname)])
        (fun g hg => hgood g (by simp [hg]))
        (by simp only [List.length_cons] at hcnt; omega)
    refine ⟨st', w', rec :: nd, ?_, by simp [hlen], fun hcons => absurd hcons (by simp), ?_⟩
    · rw [heq]; simp
    · intro _
      by_cases hr : rest = []
      · subst hr
        rw [hnil rfl]
        refine ⟨res.2, ?_⟩
        have hs3 : st3.uploadSessions = res.1.uploadSessions := by
          rw [hst3, diskWrite_sessions, hst2, ensureDirectoryExists_sessions]
        rw [hs3, hres, getUploadSession_sessions_eq]
        exact mapGet_mapSet_self _ _ _
      · exact hsess hr

theorem removeUploadedFiles_sessions :
    ∀ (w : List (String × String)) (st : ServerState),
      (removeUploadedFiles st w).uploadSessions = st.uploadSessions ∧
      (removeUploadedFiles st w).badPaths = st.badPaths := by
  intro w
  induction w with
  | nil => intro st; exact ⟨rfl, rfl⟩
  | cons x w ih =>
    intro st
    rw [removeUploadedFiles, List.foldl_cons]
    by_cases hb : pathJoin x.1 x.2 ∈ st.badPaths
    · simpa [removeUploadedFiles, hb] using ih st
    · have := ih (diskRemoveFile st x.1 x.2)
      rw [removeUploadedFiles] at this
      simp only [hb, if_neg, if_false]
      constructor
      · rw [this.1, diskRemoveFile_sessions]
      · rw [this.2, diskRemoveFile_badPaths]

theorem removeUploadedFiles_clean :
    ∀ (w : List (String × String)) (st : ServerState), st.badPaths = [] →
      ∀ q g, g ∈ readdirD (removeUploadedFiles st w) q →
        g ∈ readdirD st q ∧ (q, g) ∉ w := by
  intro w
  induction w with
  | nil => intro st _ q g h; exact ⟨h, by simp⟩
  | cons x w ih =>
    intro st hbad q g h
    rw [removeUploadedFiles, List.foldl_cons] at h
    have hb : pathJoin x.1 x.2 ∉ st.badPaths := by rw [hbad]; simp
    rw [if_neg hb] at h
    have hbad1 : (diskRemoveFile st x.1 x.2).badPaths = [] := by
      rw [diskRemoveFile_badPaths, hbad]
    have hih := ih (diskRemoveFile st x.1 x.2) hbad1 q g (by rwa [removeUploadedFiles])
    rcases hih with ⟨h1, h2⟩
    by_cases hq : q = x.1
    · subst hq
      rw [readdirD_diskRemoveFile_self] at h1
      have hmem := List.mem_filter.mp h1
      refine ⟨hmem.1, ?_⟩
      intro hcon
      rcases List.mem_cons.mp hcon with hc | hc
      · have : g = x.2 := by
          have := congrArg Prod.snd hc
          simpa using this
        rw [this] at hmem
        simpa using hmem.2
      · exact h2 hc
    · rw [readdirD_diskRemoveFile_ne _ _ _ _ hq] at h1
      refine ⟨h1, ?_⟩
      intro hcon
      rcases List.mem_cons.mp hcon with hc | hc
      · exact hq (by simpa using congrArg Prod.fst hc)
      · exact h2 hc

theorem postUpload_error_spec (st : ServerState) (hd : Headers) (now : DateTime)
    (batch : List IncomingFile) (st1 : ServerState) (w1 : List (String × String))
    (e : UploadError)
    (hrun : processFiles hd now st batch 0 [] [] = (st1, w1, Except.error e))
    (hclean : st.badPaths = []) :
    (postUpload st hd batch now).2.status = middlewareStatus e ∧
    (postUpload st hd batch now).2.error = some (middlewareMessage e) ∧
    (postUpload st hd batch now).2.files = [] ∧
    (∀ q nm, nm ∈ readdirD (postUpload st hd batch now).1 q → nm ∈ readdirD st q) ∧
    (∀ k s, mapGet st.uploadSessions k = some s →
      ∃ t, mapGet (postUpload st hd batch now).1.uploadSessions k = some t ∧
        t.uploadedFiles = s.uploadedFiles) := by
  have hpu : postUpload st hd batch now =
      (removeUploadedFiles st1 w1,
       { status := middlewareStatus e, error := some (middlewareMessage e), files := [],
         uploadFolder := none, sessionId := none, totalFilesInSession := none }) := by
    cases e <;> simp [postUpload, hrun, middlewareStatus, middlewareMessage]
  obtain ⟨hstab, hbadp, tail, htail, hdisk⟩ := processFiles_effects hd now batch st 0 [] []
  rw [hrun] at hstab hbadp htail hdisk
  simp only [List.nil_append] at htail
  have hb1 : st1.badPaths = [] := by rw [hbadp, hclean]
  refine ⟨by rw [hpu], by rw [hpu], by rw [hpu], ?_, ?_⟩
  · intro q nm h
    rw [hpu] at h
    obtain ⟨h1, hnot⟩ := removeUploadedFiles_clean w1 st1 hb1 q nm h
    rcases hdisk q nm h1 with h2 | h2
    · exact h2
    · exact absurd (htail ▸ h2) hnot
  · intro k s hk
    obtain ⟨t, ht, _, hu, _⟩ := hstab k s hk
    refine ⟨t, ?_, hu⟩
    rw [hpu]
    show mapGet (removeUploadedFiles st1 w1).uploadSessions k = some t
    rw [(removeUploadedFiles_sessions w1 st1).1]
    exact ht

theorem processFiles_error_run (hd : Headers) (now : DateTime)
    (pre : List IncomingFile) (f : IncomingFile) (rest : List IncomingFile)
    (st : ServerState) (e : UploadError)
    (hpre : ∀ x ∈ pre, jsStartsWith x.mimetype "image/" = true ∧ x.size ≤ 10 * 1024 * 1024)
    (hlen : pre.length ≤ 20)
    (herr : ∀ st1 : ServerState, ∃ stE, processOneFile hd now st1 pre.length f =
      (stE, Except.error e)) :
    ∃ stE w1, processFiles hd now st (pre ++ f :: rest) 0 [] [] =
      (stE, w1, Except.error e) := by
  obtain ⟨st1, w1, nd, hrun, _, _, _⟩ :=
    processFiles_good hd now pre st 0 [] [] hpre (by omega)
  obtain ⟨stE, hstep⟩ := herr st1
  refine ⟨stE, w1, ?_⟩
  rw [processFiles_append hd now pre (f :: rest) st 0 [] [], hrun]
  simp only [Nat.zero_add]
  simp [processFiles, hstep]

/-- C2 (amended): a batch whose first failing file is a non-image one
(every earlier file an image within the size limit, and the non-image
file among the first 20 parts) is rejected in its entirety with one
error response; because the fileFilter error is a plain Error and not a
MulterError, the error middleware surfaces it as the generic HTTP 500
"Internal server error" rather than a 400; no file of the batch remains
on disk and no session's uploadedFiles list changes. -/
theorem upload_nonimage_batch (st : ServerState) (hd : Headers) (now : DateTime)
    (pre : List IncomingFile) (bad : IncomingFile) (rest : List IncomingFile)
    (hclean : st.badPaths = [])
    (hpre : ∀ f ∈ pre, jsStartsWith f.mimetype "image/" = true ∧ f.size ≤ 10 * 1024 * 1024)
    (hlen : pre.length ≤ 19)
    (hbad : jsStartsWith bad.mimetype "image/" = false) :
    (postUpload st hd (pre ++ bad :: rest) now).2.status = 500 ∧
    (postUpload st hd (pre ++ bad :: rest) now).2.error = some "Internal server error" ∧
    (postUpload st hd (pre ++ bad :: rest) now).2.files = [] ∧
    (∀ q nm, nm ∈ readdirD (postUpload st hd (pre ++ bad :: rest) now).1 q →
      nm ∈ readdirD st q) ∧
    (∀ k s, mapGet st.uploadSessions k = some s →
      ∃ t, mapGet (postUpload st hd (pre ++ bad :: rest) now).1.uploadSessions k = some t ∧
        t.uploadedFiles = s.uploadedFiles) := by
  obtain ⟨stE, w1, hrun⟩ := processFiles_error_run hd now pre bad rest st
    (UploadError.customError "Only image files are allowed!") hpre (by omega)
    (fun st1 => ⟨st1, processOneFile_badmime hd now st1 pre.length bad (by omega) hbad⟩)
  have h := postUpload_error_spec st hd now (pre ++ bad :: rest) stE w1
    (UploadError.customError "Only image files are allowed!") hrun hclean
  simpa [middlewareStatus, middlewareMessage] using h

/-- C2 witness: the literal batch [a.png, b.txt, c.png] into a session
with an empty folder: one error response, no stored file recorded, and
the session's uploadedFiles list stays empty. -/
theorem upload_nonimage_batch_witness :
    (postUpload ⟨[("s1", ⟨"F", [], 0, 0⟩)], [], []⟩ ⟨some "s1", none⟩
      [⟨"a.png", "image/png", 5⟩, ⟨"b.txt", "text/plain", 6⟩, ⟨"c.png", "image/png", 7⟩]
      ⟨1000, 2024, 0, 2, 3, 4, 5, 6⟩).2.status = 500 ∧
    (postUpload ⟨[("s1", ⟨"F", [], 0, 0⟩)], [], []⟩ ⟨some "s1", none⟩
      [⟨"a.png", "image/png", 5⟩, ⟨"b.txt", "text/plain", 6⟩, ⟨"c.png", "image/png", 7⟩]
      ⟨1000, 2024, 0, 2, 3, 4, 5, 6⟩).2.error = some "Internal server error" ∧
    (∃ t, mapGet (postUpload ⟨[("s1", ⟨"F", [], 0, 0⟩)], [], []⟩ ⟨some "s1", none⟩
      [⟨"a.png", "image/png", 5⟩, ⟨"b.txt", "text/plain", 6⟩, ⟨"c.png", "image/png", 7⟩]
      ⟨1000, 2024, 0, 2, 3, 4, 5, 6⟩).1.uploadSessions "s1" = some t ∧
      t.uploadedFiles = []) := by
  have h := upload_nonimage_batch ⟨[("s1", ⟨"F", [], 0, 0⟩)], [], []⟩ ⟨some "s1", none⟩
    ⟨1000, 2024, 0, 2, 3, 4, 5, 6⟩
    [⟨"a.png", "image/png", 5⟩] ⟨"b.txt", "text/plain", 6⟩ [⟨"c.png", "image/png", 7⟩]
    rfl (by decide) (by decide) (by decide)
  exact ⟨h.1, h.2.1, h.2.2.2.2 "s1" ⟨"F", [], 0, 0⟩ rfl⟩

/-- C2 counterexample: the same literal batch contains a non-image file,
yet the response status is 500, not the 400 the claim asserts. -/
theorem upload_nonimage_batch_cex :
    jsStartsWith "text/plain" "image/" = false ∧
    (postUpload ⟨[("s1", ⟨"F", [], 0, 0⟩)], [], []⟩ ⟨some "s1", none⟩
      [⟨"a.png", "image/png", 5⟩, ⟨"b.txt", "text/plain", 6⟩, ⟨"c.png", "image/png", 7⟩]
      ⟨1000, 2024, 0, 2, 3, 4, 5, 6⟩).2.status = 500 ∧
    (500 : Nat) ≠ 400 := by
  refine ⟨by decide, ?_, by decide⟩
  decide

/-- C8 (amended): the configured limits are enforced with distinct 400
errors and no partial processing, provided the limit violation is the
first failure of the batch: a batch whose first 20 parts are images
within the size limit but which has a 21st part is rejected with 400
"Too many files"; a batch whose first failing file is an oversized image
(all earlier files images within the limit, the oversized one among the
first 20 parts) is rejected with 400 "File too large"; in both cases no
file of the batch remains on disk and no session's uploadedFiles list
changes. -/
theorem upload_limit_enforcement :
    (∀ (st : ServerState) (hd : Headers) (now : DateTime) (pre : List IncomingFile)
       (g : IncomingFile) (rest : List IncomingFile),
       st.badPaths = [] →
       (∀ f ∈ pre, jsStartsWith f.mimetype "image/" = true ∧ f.size ≤ 10 * 1024 * 1024) →
       pre.length = 20 →
       (postUpload st hd (pre ++ g :: rest) now).2.status = 400 ∧
       (postUpload st hd (pre ++ g :: rest) now).2.error = some "Too many files" ∧
       (postUpload st hd (pre ++ g :: rest) now).2.files = [] ∧
       (∀ q nm, nm ∈ readdirD (postUpload st hd (pre ++ g :: rest) now).1 q →
         nm ∈ readdirD st q) ∧
       (∀ k s, mapGet st.uploadSessions k = some s →
         ∃ t, mapGet (postUpload st hd (pre ++ g :: rest) now).1.uploadSessions k = some t ∧
           t.uploadedFiles = s.uploadedFiles)) ∧
    (∀ (st : ServerState) (hd : Headers) (now : DateTime) (pre : List IncomingFile)
       (big : IncomingFile) (rest : List IncomingFile),
       st.badPaths = [] →
       (∀ f ∈ pre, jsStartsWith f.mimetype "image/" = true ∧ f.size ≤ 10 * 1024 * 1024) →
       pre.length ≤ 19 →
       jsStartsWith big.mimetype "image/" = true →
       10 * 1024 * 1024 < big.size →
       (postUpload st hd (pre ++ big :: rest) now).2.status = 400 ∧
       (postUpload st hd (pre ++ big :: rest) now).2.error = some "File too large" ∧
       (postUpload st hd (pre ++ big :: rest) now).2.files = [] ∧
       (∀ q nm, nm ∈ readdirD (postUpload st hd (pre ++ big :: rest) now).1 q →
         nm ∈ readdirD st q) ∧
       (∀ k s, mapGet st.uploadSessions k = some s →
         ∃ t, mapGet (postUpload st hd (pre ++ big :: rest) now).1.uploadSessions k = some t ∧
           t.uploadedFiles = s.uploadedFiles)) := by
  constructor
  · intro st hd now pre g rest hclean hpre hlen
    obtain ⟨stE, w1, hrun⟩ := processFiles_error_run hd now pre g rest st
      UploadError.limitFileCount hpre (by omega)
      (fun st1 => ⟨st1, processOneFile_count hd now st1 pre.length g (by omega)⟩)
    have h := postUpload_error_spec st hd now (pre ++ g :: rest) stE w1
      UploadError.limitFileCount hrun hclean
    simpa [middlewareStatus, middlewareMessage] using h
  · intro st hd now pre big rest hclean hpre hlen him hsz
    obtain ⟨stE, w1, hrun⟩ := processFiles_error_run hd now pre big rest st
      UploadError.limitFileSize hpre (by omega)
      (fun st1 => ⟨_, processOneFile_oversize hd now st1 pre.length big (by omega) him hsz⟩)
    have h := postUpload_error_spec st hd now (pre ++ big :: rest) stE w1
      UploadError.limitFileSize hrun hclean
    simpa [middlewareStatus, middlewareMessage] using h

/-- C8 witness: a batch of 21 small images is answered 400 "Too many
files", and a single 11 MiB image is answered 400 "File too large",
leaving the session's uploadedFiles list empty. -/
theorem upload_limit_enforcement_witness :
    (postUpload ⟨[("s1", ⟨"F", [], 0, 0⟩)], [], []⟩ ⟨some "s1", none⟩
      (List.replicate 20 ⟨"a.png", "image/png", 5⟩ ++ [⟨"u.png", "image/png", 5⟩])
      ⟨1000, 2024, 0, 2, 3, 4, 5, 6⟩).2.error = some "Too many files" ∧
    (postUpload ⟨[("s1", ⟨"F", [], 0, 0⟩)], [], []⟩ ⟨some "s1", none⟩
      [⟨"big.png", "image/png", 11 * 1024 * 1024⟩]
      ⟨1000, 2024, 0, 2, 3, 4, 5, 6⟩).2.error = some "File too large" ∧
    (∃ t, mapGet (postUpload ⟨[("s1", ⟨"F", [], 0, 0⟩)], [], []⟩ ⟨some "s1", none⟩
      [⟨"big.png", "image/png", 11 * 1024 * 1024⟩]
      ⟨1000, 2024, 0, 2, 3, 4, 5, 6⟩).1.uploadSessions "s1" = some t ∧
      t.uploadedFiles = []) := by
  have h1 := (upload_limit_enforcement.1 ⟨[("s1", ⟨"F", [], 0, 0⟩)], [], []⟩ ⟨some "s1", none⟩
    ⟨1000, 2024, 0, 2, 3, 4, 5, 6⟩ (List.replicate 20 ⟨"a.png", "image/png", 5⟩)
    ⟨"u.png", "image/png", 5⟩ [] rfl (by decide) (by decide))
  have h2 := (upload_limit_enforcement.2 ⟨[("s1", ⟨"F", [], 0, 0⟩)], [], []⟩ ⟨some "s1", none⟩
    ⟨1000, 2024, 0, 2, 3, 4, 5, 6⟩ [] ⟨"big.png", "image/png", 11 * 1024 * 1024⟩ []
    rfl (by decide) (by decide) (by decide) (by decide))
  exact ⟨by simpa using h1.2.1, by simpa using h2.2.1,
    h2.2.2.2.2 "s1" ⟨"F", [], 0, 0⟩ rfl⟩

/-- C8 counterexample: a batch of 21 files whose first file is an
oversized image is answered "File too large", not the "too many files"
error the claim asserts for every batch of more than 20 files. -/
theorem upload_limit_enforcement_cex :
    (⟨"big.png", "image/png", 11 * 1024 * 1024⟩ ::
        List.replicate 20 (⟨"a.png", "image/png", 5⟩ : IncomingFile)).length = 21 ∧
    (postUpload ⟨[("s1", ⟨"F", [], 0, 0⟩)], [], []⟩ ⟨some "s1", none⟩
      (⟨"big.png", "image/png", 11 * 1024 * 1024⟩ ::
        List.replicate 20 ⟨"a.png", "image/png", 5⟩)
      ⟨1000, 2024, 0, 2, 3, 4, 5, 6⟩).2.error = some "File too large" ∧
    some "File too large" ≠ some "Too many files" := by
  refine ⟨by decide, ?_, by decide⟩
  decide

theorem postUpload_preserves (st : ServerState) (hd : Headers)
    (files : List IncomingFile) (now : DateTime) :
    ∀ k s, mapGet st.uploadSessions k = some s →
      ∃ t, mapGet (postUpload st hd files now).1.uploadSessions k = some t ∧
        t.currentFolder = s.currentFolder ∧
        ∃ l, t.uploadedFiles = s.uploadedFiles ++ l := by
  intro k s hk
  obtain ⟨hstab, _, _⟩ := processFiles_effects hd now files st 0 [] []
  rcases hrun : processFiles hd now st files 0 [] [] with ⟨st1, w1, r⟩
  rw [hrun] at hstab
  obtain ⟨t, ht, hf, hu, _⟩ := hstab k s hk
  cases r with
  | error e =>
    refine ⟨t, ?_, hf, [], by simp [hu]⟩
    have hpu : (postUpload st hd files now).1 = removeUploadedFiles st1 w1 := by
      cases e <;> simp [postUpload, hrun]
    rw [hpu, (removeUploadedFiles_sessions w1 st1).1]
    exact ht
  | ok mfiles =>
    by_cases hemp : mfiles.isEmpty
    · refine ⟨t, ?_, hf, [], by simp [hu]⟩
      rw [show (postUpload st hd files now).1 = st1 by simp [postUpload, hrun, hemp]]
      exact ht
    · rcases hget : mapGet st1.uploadSessions (headerOr hd.xSessionId "default") with _ | sess
      · refine ⟨t, ?_, hf, [], by simp [hu]⟩
        rw [show (postUpload st hd files now).1 = st1 by simp [postUpload, hrun, hemp, hget]]
        exact ht
      · have hpu : (postUpload st hd files now).1 = { st1 with uploadSessions := mapSet st1.uploadSessions (headerOr hd.xSessionId "default") { sess with uploadedFiles := sess.uploadedFiles ++ mfiles.map (fun f => { originalName := f.originalname, filename := f.filename, path := f.path, size := f.size, mimetype := f.mimetype, uploadFolder := sess.currentFolder, sessionId := headerOr hd.xSessionId "default" }) } } := by
          simp [postUpload, hrun, hemp, hget]
        by_cases hks : k = headerOr hd.xSessionId "default"
        · subst hks
          have hts : t = sess := by
            rw [hget] at ht
            exact (Option.some_inj.mp ht).symm
          subst hts
          refine ⟨{ t with uploadedFiles := t.uploadedFiles ++ mfiles.map (fun f => { originalName := f.originalname, filename := f.filename, path := f.path, size := f.size, mimetype := f.mimetype, uploadFolder := t.currentFolder, sessionId := headerOr hd.xSessionId "default" }) }, ?_, ?_, ?_⟩
          · rw [hpu]
            exact mapGet_mapSet_self _ _ _
          · exact hf
          · exact ⟨mfiles.map (fun f => { originalName := f.originalname, filename := f.filename, path := f.path, size := f.size, mimetype := f.mimetype, uploadFolder := t.currentFolder, sessionId := headerOr hd.xSessionId "default" }), by simp [hu]⟩
        · refine ⟨t, ?_, hf, [], by simp [hu]⟩
          rw [hpu]
          show mapGet (mapSet st1.uploadSessions _ _) k = some t
          rw [mapGet_mapSet_ne _ _ _ _ hks]
          exact ht

theorem mapGet_none_of_key_not_mem {α : Type} (m : List (String × α)) (k : String)
    (h : k ∉ m.map Prod.fst) : mapGet m k = none := by
  induction m with
  | nil => rfl
  | cons e rest ih =>
    have he : e.1 ≠ k := fun hc => h (by rw [List.map_cons, ← hc]; exact List.mem_cons_self _ _)
    have hr : k ∉ rest.map Prod.fst := fun hc => h (by rw [List.map_cons]; exact List.mem_cons_of_mem _ hc)
    simp [mapGet, he, ih hr]

theorem mapGet_none_filter {α : Type} (m : List (String × α)) (p : String × α → Bool)
    (k : String) (h : mapGet m k = none) : mapGet (m.filter p) k = none := by
  induction m with
  | nil => rfl
  | cons e rest ih =>
    have he : e.1 ≠ k := by
      intro hc
      rw [show mapGet (e :: rest) k = some e.2 by simp [mapGet, hc]] at h
      exact absurd h (by simp)
    have hr : mapGet rest k = none := by
      rw [show mapGet (e :: rest) k = mapGet rest k by simp [mapGet, he]] at h
      exact h
    cases hp : p e
    · simpa [List.filter, hp] using ih hr
    · simpa [List.filter, hp, mapGet, he] using ih hr

theorem mapGet_filter_of_nodup {α : Type} (m : List (String × α))
    (p : String × α → Bool) (k : String) (hnd : (m.map Prod.fst).Nodup)
    (s t : α) (hm : mapGet m k = some s) (ht : mapGet (m.filter p) k = some t) :
    t = s := by
  induction m with
  | nil => exact absurd hm (by simp [mapGet])
  | cons e rest ih =>
    rw [List.map_cons] at hnd
    obtain ⟨hnd1, hnd2⟩ := List.nodup_cons.mp hnd
    by_cases he : e.1 = k
    · have hs : s = e.2 := by
        rw [show mapGet (e :: rest) k = some e.2 by simp [mapGet, he]] at hm
        exact (Option.some_inj.mp hm).symm
      cases hp : p e
      · have hnone : mapGet (rest.filter p) k = none := by
          apply mapGet_none_filter
          apply mapGet_none_of_key_not_mem
          rw [← he]
          exact hnd1
        rw [show (e :: rest).filter p = rest.filter p by simp [List.filter, hp]] at ht
        rw [hnone] at ht
        exact absurd ht (by simp)
      · rw [show (e :: rest).filter p = e :: rest.filter p by simp [List.filter, hp]] at ht
        rw [show mapGet (e :: (rest.filter p)) k = some e.2 by simp [mapGet, he]] at ht
        rw [hs]
        exact (Option.some_inj.mp ht).symm
    · have hm1 : mapGet rest k = some s := by
        rw [show mapGet (e :: rest) k = mapGet rest k by simp [mapGet, he]] at hm
        exact hm
      cases hp : p e
      · rw [show (e :: rest).filter p = rest.filter p by simp [List.filter, hp]] at ht
        exact ih hnd2 hm1 ht
      · rw [show (e :: rest).filter p = e :: rest.filter p by simp [List.filter, hp]] at ht
        rw [show mapGet (e :: (rest.filter p)) k = mapGet (rest.filter p) k by simp [mapGet, he]] at ht
        exact ih hnd2 hm1 ht

/-- C9: currentFolder is only assigned at first-touch creation or by an
explicit rotation: getUploadSession on an existing record returns it
with its folder unchanged whatever folder the request asks for, and the
upload, fetch, clear and sweep operations leave every surviving record's
currentFolder intact and only ever extend its uploadedFiles (so the
folder stored in existing FileRecords is never rewritten). -/
theorem current_folder_stable :
    (∀ (st : ServerState) (sid : String) (rf : Option String) (now : DateTime)
       (s : SessionRecord), mapGet st.uploadSessions sid = some s →
       (getUploadSession st sid rf now).2.currentFolder = s.currentFolder ∧
       ∃ t, mapGet (getUploadSession st sid rf now).1.uploadSessions sid = some t ∧
         t.currentFolder = s.currentFolder ∧ t.uploadedFiles = s.uploadedFiles) ∧
    (∀ (st : ServerState) (hd : Headers) (files : List IncomingFile) (now : DateTime)
       (k : String) (s : SessionRecord), mapGet st.uploadSessions k = some s →
       ∃ t, mapGet (postUpload st hd files now).1.uploadSessions k = some t ∧
         t.currentFolder = s.currentFolder ∧
         ∃ l, t.uploadedFiles = s.uploadedFiles ++ l) ∧
    (∀ (st : ServerState) (sid k : String) (s : SessionRecord),
       mapGet st.uploadSessions k = some s →
       ∀ t, mapGet (getSession st sid).1.uploadSessions k = some t → t = s) ∧
    (∀ (st : ServerState) (nowMillis : Int),
       (st.uploadSessions.map Prod.fst).Nodup →
       ∀ (k : String) (s t : SessionRecord),
       mapGet st.uploadSessions k = some s →
       mapGet (cleanupOldSessions st nowMillis).uploadSessions k = some t →
       t = s) ∧
    (∀ (st : ServerState) (sid k : String) (s : SessionRecord), k ≠ sid →
       mapGet st.uploadSessions k = some s →
       mapGet (clearSession st sid).1.uploadSessions k = some s) := by
  refine ⟨?_, ?_, ?_, ?_, ?_⟩
  · intro st sid rf now s hs
    obtain ⟨t, ht, hf, hu, _⟩ := getUploadSession_stable st sid rf now sid s hs
    refine ⟨?_, t, ht, hf, hu⟩
    simp [getUploadSession, hs]
  · intro st hd files now k s hk
    exact postUpload_preserves st hd files now k s hk
  · intro st sid k s hk t ht
    have hstate : (getSession st sid).1 = st := by
      cases h : mapGet st.uploadSessions sid <;> simp [getSession, h]
    rw [hstate, hk] at ht
    exact (Option.some_inj.mp ht).symm
  · intro st nowMillis hnd k s t hk ht
    rw [show (cleanupOldSessions st nowMillis).uploadSessions = st.uploadSessions.filter (fun e => !decide (e.2.lastActivity < nowMillis - 24 * 60 * 60 * 1000)) from by simp [cleanupOldSessions]] at ht
    exact mapGet_filter_of_nodup st.uploadSessions _ k hnd s t hk ht
  · intro st sid k s hne hk
    rcases h : mapGet st.uploadSessions sid with _ | srec
    · simpa [clearSession, h] using hk
    · by_cases hf : srec.currentFolder = ""
      · rw [show (clearSession st sid).1.uploadSessions =
            mapDelete st.uploadSessions sid by simp [clearSession, h, hf]]
        rw [mapGet_mapDelete_ne _ _ _ hne]
        exact hk
      · rw [show (clearSession st sid).1.uploadSessions =
            mapDelete (tryDeleteFolder st (pathJoin "uploads" srec.currentFolder)).uploadSessions sid by
            simp [clearSession, h, hf]]
        rw [mapGet_mapDelete_ne _ _ _ hne, tryDeleteFolder_sessions]
        exact hk

theorem postUpload_ok_spec (st : ServerState) (hd : Headers) (now : DateTime)
    (files : List IncomingFile) (st1 : ServerState) (w1 : List (String × String))
    (nd : List MulterFile) (sess : SessionRecord)
    (hrun : processFiles hd now st files 0 [] [] = (st1, w1, Except.ok nd))
    (hne : nd ≠ [])
    (hget : mapGet st1.uploadSessions (headerOr hd.xSessionId "default") = some sess) :
    (postUpload st hd files now).2.status = 200 ∧
    (postUpload st hd files now).2.error = none ∧
    (postUpload st hd files now).2.sessionId = some (headerOr hd.xSessionId "default") ∧
    (postUpload st hd files now).2.uploadFolder = some sess.currentFolder ∧
    (postUpload st hd files now).2.files = nd.map (fun f => { originalName := f.originalname, filename := f.filename, path := f.path, size := f.size, mimetype := f.mimetype, uploadFolder := sess.currentFolder, sessionId := headerOr hd.xSessionId "default" }) ∧
    mapGet (postUpload st hd files now).1.uploadSessions (headerOr hd.xSessionId "default") = some { sess with uploadedFiles := sess.uploadedFiles ++ nd.map (fun f => { originalName := f.originalname, filename := f.filename, path := f.path, size := f.size, mimetype := f.mimetype, uploadFolder := sess.currentFolder, sessionId := headerOr hd.xSessionId "default" }) } ∧
    (postUpload st hd files now).1.disk = st1.disk := by
  have hemp : nd.isEmpty = false := by
    cases nd with
    | nil => exact absurd rfl hne
    | cons x y => rfl
  refine ⟨?_, ?_, ?_, ?_, ?_, ?_, ?_⟩ <;>
    simp [postUpload, hrun, hemp, hget, mapGet_mapSet_self]

/-- C10: an upload request carrying no x-session-id header is resolved
to the literal session id "default": the response and every stored
FileRecord carry sessionId "default", and the files are recorded under
the "default" session's current folder. -/
theorem default_session_upload (st : ServerState) (hd : Headers)
    (files : List IncomingFile) (now : DateTime)
    (hsid : hd.xSessionId = none)
    (hgood : ∀ f ∈ files, jsStartsWith f.mimetype "image/" = true ∧ f.size ≤ 10 * 1024 * 1024)
    (hne : files ≠ []) (hlen : files.length ≤ 20) :
    (postUpload st hd files now).2.sessionId = some "default" ∧
    (∀ r ∈ (postUpload st hd files now).2.files, r.sessionId = "default") ∧
    (∃ sess, mapGet (postUpload st hd files now).1.uploadSessions "default" = some sess ∧
      ∀ r ∈ (postUpload st hd files now).2.files, r.uploadFolder = sess.currentFolder) := by
  have hsid' : headerOr hd.xSessionId "default" = "default" := by rw [hsid]; rfl
  obtain ⟨st1, w1, nd, hrun, hndlen, _, hsess⟩ :=
    processFiles_good hd now files st 0 [] [] hgood (by omega)
  obtain ⟨sess, hget⟩ := hsess hne
  have hndne : nd ≠ [] := by
    intro h0
    rw [h0] at hndlen
    cases files with
    | nil => exact hne rfl
    | cons a b => simp at hndlen
  simp only [List.nil_append] at hrun
  obtain ⟨_, _, hrsid, _, hrfiles, hmget, _⟩ :=
    postUpload_ok_spec st hd now files st1 w1 nd sess hrun hndne hget
  refine ⟨by rw [hrsid, hsid'], ?_, ?_⟩
  · intro r hr
    rw [hrfiles] at hr
    obtain ⟨f, _, rfl⟩ := List.mem_map.mp hr
    exact hsid'
  · refine ⟨{ sess with uploadedFiles := sess.uploadedFiles ++ nd.map (fun f => { originalName := f.originalname, filename := f.filename, path := f.path, size := f.size, mimetype := f.mimetype, uploadFolder := sess.currentFolder, sessionId := "default" }) }, ?_, ?_⟩
    · rw [hsid'] at hmget
      exact hmget
    · intro r hr
      rw [hrfiles] at hr
      obtain ⟨f, _, rfl⟩ := List.mem_map.mp hr
      rfl

/-- C10 witness: a one-file upload with no session header lands in the
session "default". -/
theorem default_session_upload_witness :
    (postUpload ⟨[], [], []⟩ ⟨none, none⟩ [⟨"a.png", "image/png", 5⟩]
      ⟨1000, 2024, 0, 2, 3, 4, 5, 6⟩).2.sessionId = some "default" ∧
    (∃ sess, mapGet (postUpload ⟨[], [], []⟩ ⟨none, none⟩ [⟨"a.png", "image/png", 5⟩]
      ⟨1000, 2024, 0, 2, 3, 4, 5, 6⟩).1.uploadSessions "default" = some sess ∧
      ∀ r ∈ (postUpload ⟨[], [], []⟩ ⟨none, none⟩ [⟨"a.png", "image/png", 5⟩]
        ⟨1000, 2024, 0, 2, 3, 4, 5, 6⟩).2.files, r.uploadFolder = sess.currentFolder) := by
  have h := default_session_upload ⟨[], [], []⟩ ⟨none, none⟩ [⟨"a.png", "image/png", 5⟩]
    ⟨1000, 2024, 0, 2, 3, 4, 5, 6⟩ rfl (by decide) (by decide) (by decide)
  exact ⟨h.1, h.2.2⟩

/-- C9 witness: getUploadSession on an existing session that requests a
different folder keeps the stored folder. -/
theorem current_folder_stable_witness :
    (getUploadSession ⟨[("s1", ⟨"F", [], 0, 0⟩)], [], []⟩ "s1" (some "OTHER")
      ⟨1000, 2024, 0, 2, 3, 4, 5, 6⟩).2.currentFolder = "F" ∧
    (∃ t, mapGet (getUploadSession ⟨[("s1", ⟨"F", [], 0, 0⟩)], [], []⟩ "s1" (some "OTHER")
      ⟨1000, 2024, 0, 2, 3, 4, 5, 6⟩).1.uploadSessions "s1" = some t ∧
      t.currentFolder = "F" ∧ t.uploadedFiles = []) := by
  have h := current_folder_stable.1 ⟨[("s1", ⟨"F", [], 0, 0⟩)], [], []⟩ "s1" (some "OTHER")
    ⟨1000, 2024, 0, 2, 3, 4, 5, 6⟩ ⟨"F", [], 0, 0⟩ rfl
  exact ⟨h.1, h.2⟩

/-! Decimal rendering: the characters of Nat.repr are digits and the
rendering is injective.  Needed to show distinct sequence numbers yield
distinct stored file names. -/

theorem decDigits_append_single (xs : List Char) (c : Char) :
    decDigits (xs ++ [c]) = 10 * decDigits xs + (c.toNat - 48) := by
  simp [decDigits, List.foldl_append]

theorem toDigitsCore_acc (fuel : Nat) :
    ∀ (n : Nat) (ds : List Char),
      Nat.toDigitsCore 10 fuel n ds = Nat.toDigitsCore 10 fuel n [] ++ ds := by
  induction fuel with
  | zero => intro n ds; simp [Nat.toDigitsCore]
  | succ fuel ih =>
    intro n ds
    by_cases h : n / 10 = 0
    · simp [Nat.toDigitsCore, h]
    · simp only [Nat.toDigitsCore, h, if_false]
      rw [ih (n / 10) (Nat.digitChar (n % 10) :: ds), ih (n / 10) [Nat.digitChar (n % 10)],
        List.append_assoc]
      rfl

theorem decDigits_toDigitsCore (fuel : Nat) :
    ∀ n : Nat, n < fuel → decDigits (Nat.toDigitsCore 10 fuel n []) = n := by
  induction fuel with
  | zero => intro n h; omega
  | succ fuel ih =>
    intro n h
    have hval : ∀ k, k < 10 → (Nat.digitChar k).toNat - 48 = k := by decide
    by_cases h0 : n / 10 = 0
    · have h10 : n < 10 := by
        by_contra hc
        push_neg at hc
        have : 1 ≤ n / 10 := Nat.le_div_iff_mul_le (by norm_num) |>.mpr (by omega)
        omega
      simp only [Nat.toDigitsCore, h0, if_true]
      have : decDigits [Nat.digitChar (n % 10)] = (Nat.digitChar (n % 10)).toNat - 48 := by
        simp [decDigits]
      rw [this, hval (n % 10) (Nat.mod_lt _ (by norm_num)), Nat.mod_eq_of_lt h10]
    · have hpos : 0 < n := by
        rcases Nat.eq_zero_or_pos n with h1 | h1
        · exact absurd (by rw [h1]) h0
        · exact h1
      have hlt : n / 10 < fuel := by
        have := Nat.div_lt_self hpos (by norm_num : 1 < 10)
        omega
      simp only [Nat.toDigitsCore, h0, if_false]
      rw [toDigitsCore_acc fuel (n / 10) [Nat.digitChar (n % 10)],
        decDigits_append_single, ih (n / 10) hlt,
        hval (n % 10) (Nat.mod_lt _ (by norm_num))]
      omega

theorem toDigitsCore_digits (fuel : Nat) :
    ∀ (n : Nat) (ds : List Char), (∀ c ∈ ds, c.isDigit = true) →
      ∀ c ∈ Nat.toDigitsCore 10 fuel n ds, c.isDigit = true := by
  induction fuel with
  | zero => intro n ds hds c hc; exact hds c hc
  | succ fuel ih =>
    intro n ds hds c hc
    have hdigit : ∀ k, k < 10 → (Nat.digitChar k).isDigit = true := by decide
    have hcons : ∀ x ∈ Nat.digitChar (n % 10) :: ds, x.isDigit = true := by
      intro x hx
      rcases List.mem_cons.mp hx with h1 | h1
      · rw [h1]; exact hdigit _ (Nat.mod_lt _ (by norm_num))
      · exact hds x h1
    by_cases h0 : n / 10 = 0
    · rw [show Nat.toDigitsCore 10 (fuel + 1) n ds = Nat.digitChar (n % 10) :: ds by
        simp [Nat.toDigitsCore, h0]] at hc
      exact hcons c hc
    · rw [show Nat.toDigitsCore 10 (fuel + 1) n ds =
          Nat.toDigitsCore 10 fuel (n / 10) (Nat.digitChar (n % 10) :: ds) by
        simp [Nat.toDigitsCore, h0]] at hc
      exact ih (n / 10) _ hcons c hc

theorem natRepr_digits (n : Nat) : ∀ c ∈ (Nat.repr n).data, c.isDigit = true := by
  intro c hc
  exact toDigitsCore_digits (n + 1) n [] (by simp) c hc

theorem natRepr_inj (a b : Nat) (h : Nat.repr a = Nat.repr b) : a = b := by
  have hd : Nat.toDigits 10 a = Nat.toDigits 10 b := congrArg String.data h
  have ha := decDigits_toDigitsCore (a + 1) a (by omega)
  have hb := decDigits_toDigitsCore (b + 1) b (by omega)
  rw [show Nat.toDigitsCore 10 (a + 1) a [] = Nat.toDigits 10 a from rfl, hd] at ha
  rw [show Nat.toDigitsCore 10 (b + 1) b [] = Nat.toDigits 10 b from rfl] at hb
  rw [ha] at hb
  exact hb

theorem digits_run_eq :
    ∀ (xs : List Char) (ys us vs : List Char),
      (∀ c ∈ xs, c.isDigit = true) → (∀ c ∈ ys, c.isDigit = true) →
      (∀ c, us.head? = some c → c.isDigit = false) →
      (∀ c, vs.head? = some c → c.isDigit = false) →
      xs ++ us = ys ++ vs → xs = ys := by
  intro xs
  induction xs with
  | nil =>
    intro ys us vs _ hy hu _ h
    cases ys with
    | nil => rfl
    | cons y ys =>
      exfalso
      have hyd : y.isDigit = true := hy y (by simp)
      have : us.head? = some y := by
        rw [show us = y :: (ys ++ vs) by simpa using h]
        rfl
      rw [hu y this] at hyd
      exact absurd hyd (by simp)
  | cons x xs ih =>
    intro ys us vs hx hy hu hv h
    cases ys with
    | nil =>
      exfalso
      have hxd : x.isDigit = true := hx x (by simp)
      have : vs.head? = some x := by
        rw [show vs = x :: (xs ++ us) by simpa using h.symm]
        rfl
      rw [hv x this] at hxd
      exact absurd hxd (by simp)
    | cons y ys =>
      simp only [List.cons_append, List.cons.injEq] at h
      rw [h.1, ih ys us vs (fun c hc => hx c (by simp [hc])) (fun c hc => hy c (by simp [hc]))
        hu hv h.2]

theorem afterLastDot_head :
    ∀ (cs suf : List Char), afterLastDot cs = some suf → suf.head? = some '.' := by
  intro cs
  induction cs with
  | nil => intro suf h; exact absurd h (by simp [afterLastDot])
  | cons c rest ih =>
    intro suf h
    rw [afterLastDot] at h
    rcases hr : afterLastDot rest with _ | s
    · rw [hr] at h
      by_cases hc : c = '.'
      · simp only [hc, if_true, if_pos] at h
        rw [← Option.some_inj.mp h]
        simp [hc]
      · simp [hc] at h
    · rw [hr] at h
      simp only [] at h
      exact ih suf (by rw [hr]; exact h)

theorem extname_head (s : String) :
    extname s = "" ∨ (extname s).data.head? = some '.' := by
  simp only [extname]
  split
  · exact Or.inl rfl
  · split
    · exact Or.inl rfl
    · split
      · next suf ha => exact Or.inr (afterLastDot_head _ suf ha)
      · exact Or.inl rfl

theorem isPrefixOf_append_self : ∀ (l t : List Char), l.isPrefixOf (l ++ t) = true := by
  intro l
  induction l with
  | nil => intro t; simp [List.isPrefixOf]
  | cons c l ih => intro t; simp [List.isPrefixOf, ih]

theorem assignedName_starts (m : Nat) (f : IncomingFile) :
    jsStartsWith (assignedName m f) "image_" = true := by
  unfold jsStartsWith assignedName
  rw [String.data_append, String.data_append]
  rw [List.append_assoc]
  exact isPrefixOf_append_self _ _

theorem assignedName_ne (a b : Nat) (f g : IncomingFile) (h : a ≠ b) :
    assignedName a f ≠ assignedName b g := by
  intro he
  apply h
  apply natRepr_inj
  apply String.ext
  have hdata := congrArg String.data he
  simp only [assignedName, String.data_append, List.append_assoc] at hdata
  have hcanc := List.append_cancel_left hdata
  have hext1 := extname_head f.originalname
  have hext2 := extname_head g.originalname
  refine digits_run_eq _ _ _ _ (natRepr_digits a) (natRepr_digits b) ?_ ?_ hcanc
  · intro c hc
    rcases hext1 with h1 | h1
    · rw [h1] at hc; exact absurd hc (by simp)
    · rw [h1] at hc
      rw [← Option.some_inj.mp hc]
      decide
  · intro c hc
    rcases hext2 with h1 | h1
    · rw [h1] at hc; exact absurd hc (by simp)
    · rw [h1] at hc
      rw [← Option.some_inj.mp hc]
      decide

theorem assignedNames_mem_gt :
    ∀ (fs : List IncomingFile) (m : Nat) (name : String),
      name ∈ assignedNames m fs → ∃ j g, m < j ∧ name = assignedName j g := by
  intro fs
  induction fs with
  | nil => intro m name h; exact absurd h (by simp [assignedNames])
  | cons f rest ih =>
    intro m name h
    rcases List.mem_cons.mp (by simpa [assignedNames] using h) with h1 | h1
    · exact ⟨m + 1, f, by omega, h1⟩
    · obtain ⟨j, g, hj, hn⟩ := ih (m + 1) name h1
      exact ⟨j, g, by omega, hn⟩

theorem multerRecords_filenames (F : String) :
    ∀ (fs : List IncomingFile) (m : Nat),
      (multerRecords F m fs).map (fun r => r.filename) = assignedNames m fs := by
  intro fs
  induction fs with
  | nil => intro m; rfl
  | cons f rest ih => intro m; simp [multerRecords, assignedNames, multerRecord, ih]

theorem getUploadSession_existing (st : ServerState) (sid : String) (rf : Option String)
    (now : DateTime) (s : SessionRecord) (h : mapGet st.uploadSessions sid = some s) :
    (getUploadSession st sid rf now).2 = { s with lastActivity := now.epochMillis } := by
  simp [getUploadSession, h]

theorem getUploadSession_new_folder (st : ServerState) (sid : String) (rf : Option String)
    (now : DateTime) (h : mapGet st.uploadSessions sid = none) :
    (getUploadSession st sid rf now).2.currentFolder =
      headerOr rf (generateTimestampFolder now) := by
  cases rf <;> simp [getUploadSession, h, headerOr]

theorem readdirD_ensure (st : ServerState) (p q : String) :
    readdirD (ensureDirectoryExists st p) q = readdirD st q := by
  unfold ensureDirectoryExists
  by_cases hd : diskHasFolder st p
  · rw [if_pos hd]
  · rw [if_neg hd]
    show readdirD { st with disk := st.disk ++ [(p, [])] } q = readdirD st q
    unfold readdirD
    rw [show ({ st with disk := st.disk ++ [(p, [])] } : ServerState).disk = st.disk ++ [(p, [])] from rfl, mapGet_append_single]
    rcases hm : mapGet st.disk q with _ | v
    · by_cases hpq : p = q <;> simp [hpq]
    · rfl

theorem processFiles_naming (hd : Headers) (now : DateTime) (F : String) :
    ∀ (fs : List IncomingFile) (st : ServerState) (count : Nat) (done : List MulterFile)
      (written : List (String × String)) (m : Nat),
      uploadTargetFolder st hd now = F →
      (∀ f ∈ fs, jsStartsWith f.mimetype "image/" = true ∧ f.size ≤ 10 * 1024 * 1024) →
      count + fs.length ≤ 20 →
      m = imageCount st (pathJoin "uploads" F) →
      (∀ name ∈ assignedNames m fs, name ∉ readdirD st (pathJoin "uploads" F)) →
      ∃ st',
        processFiles hd now st fs count done written =
          (st', written ++ (assignedNames m fs).map (fun nm => (pathJoin "uploads" F, nm)),
           Except.ok (done ++ multerRecords F m fs)) ∧
        readdirD st' (pathJoin "uploads" F) =
          readdirD st (pathJoin "uploads" F) ++ assignedNames m fs ∧
        (fs = [] → st' = st) ∧
        (fs ≠ [] → ∃ sess, mapGet st'.uploadSessions (headerOr hd.xSessionId "default") =
          some sess ∧ sess.currentFolder = F) := by
  intro fs
  induction fs with
  | nil =>
    intro st count done written m _ _ _ _ _
    exact ⟨st, by simp [processFiles, assignedNames, multerRecords],
      by simp [assignedNames], fun _ => rfl, fun h => absurd rfl h⟩
  | cons f rest ih =>
    intro st count done written m hF hgood hcnt hm hfresh
    have h20 : ¬ 20 ≤ count := by
      simp only [List.length_cons] at hcnt
      omega
    have him : jsStartsWith f.mimetype "image/" = true := (hgood f (by simp)).1
    have hsz : ¬ 10 * 1024 * 1024 < f.size := by
      have := (hgood f (by simp)).2
      omega
    have hfolder : (getUploadSession st (headerOr hd.xSessionId "default")
        hd.xUploadFolder now).2.currentFolder = F := by
      rcases h0 : mapGet st.uploadSessions (headerOr hd.xSessionId "default") with _ | s
      · rw [getUploadSession_new_folder st _ hd.xUploadFolder now h0]
        unfold uploadTargetFolder at hF
        rw [h0] at hF
        exact hF
      · rw [getUploadSession_existing st _ hd.xUploadFolder now s h0]
        unfold uploadTargetFolder at hF
        rw [h0] at hF
        exact hF
    have hreaddir1 : readdirD (getUploadSession st (headerOr hd.xSessionId "default")
        hd.xUploadFolder now).1 (pathJoin "uploads" F) = readdirD st (pathJoin "uploads" F) := rfl
    have hreaddir2 : readdirD (ensureDirectoryExists (getUploadSession st
        (headerOr hd.xSessionId "default") hd.xUploadFolder now).1 (pathJoin "uploads" F))
        (pathJoin "uploads" F) = readdirD st (pathJoin "uploads" F) := by
      rw [readdirD_ensure]
      exact hreaddir1
    have hcnt2 : ((readdirD (ensureDirectoryExists (getUploadSession st
        (headerOr hd.xSessionId "default") hd.xUploadFolder now).1 (pathJoin "uploads" F))
        (pathJoin "uploads" F)).filter (fun g => jsStartsWith g "image_")).length = m := by
      rw [hreaddir2]
      exact hm.symm
    have hstep : processOneFile hd now st count f =
        (diskWrite (ensureDirectoryExists (getUploadSession st
          (headerOr hd.xSessionId "default") hd.xUploadFolder now).1 (pathJoin "uploads" F))
          (pathJoin "uploads" F) (assignedName (m + 1) f),
         Except.ok (multerRecord F (m + 1) f, (pathJoin "uploads" F, assignedName (m + 1) f))) := by
      rw [processOneFile_ok hd now st count f h20 him hsz]
      simp only [hfolder, hcnt2]
      rfl
    have hname1 : assignedName (m + 1) f ∉ readdirD st (pathJoin "uploads" F) :=
      hfresh (assignedName (m + 1) f) (by simp [assignedNames])
    set st3 := diskWrite (ensureDirectoryExists (getUploadSession st
      (headerOr hd.xSessionId "default") hd.xUploadFolder now).1 (pathJoin "uploads" F))
      (pathJoin "uploads" F) (assignedName (m + 1) f) with hst3
    have hdisk3 : readdirD st3 (pathJoin "uploads" F) =
        readdirD st (pathJoin "uploads" F) ++ [assignedName (m + 1) f] := by
      rw [hst3, readdirD_diskWrite_self, hreaddir2, if_neg hname1]
    have hsess3 : st3.uploadSessions = mapSet st.uploadSessions
        (headerOr hd.xSessionId "default") (getUploadSession st
          (headerOr hd.xSessionId "default") hd.xUploadFolder now).2 := by
      rw [hst3, diskWrite_sessions, ensureDirectoryExists_sessions,
        getUploadSession_sessions_eq]
    have hF3 : uploadTargetFolder st3 hd now = F := by
      unfold uploadTargetFolder
      rw [hsess3, mapGet_mapSet_self]
      exact hfolder
    have hm3 : m + 1 = imageCount st3 (pathJoin "uploads" F) := by
      unfold imageCount
      rw [hdisk3, List.filter_append]
      simp [assignedName_starts, hm, imageCount]
    have hfresh3 : ∀ name ∈ assignedNames (m + 1) rest,
        name ∉ readdirD st3 (pathJoin "uploads" F) := by
      intro name hn
      rw [hdisk3]
      intro hmem
      rcases List.mem_append.mp hmem with h1 | h1
      · exact hfresh name (by simp [assignedNames, hn]) h1
      · obtain ⟨j, g, hj, hng⟩ := assignedNames_mem_gt rest (m + 1) name hn
        have : assignedName j g ≠ assignedName (m + 1) f :=
          assignedName_ne j (m + 1) g f (by omega)
        exact this (by rw [← hng]; exact List.mem_singleton.mp h1)
    obtain ⟨st', heq, hdisk, hnil, hsess⟩ := ih st3 (count + 1)
      (done ++ [multerRecord F (m + 1) f])
      (written ++ [(pathJoin "uploads" F, assignedName (m + 1) f)]) (m + 1) hF3
      (fun g hg => hgood g (by simp [hg]))
      (by simp only [List.length_cons] at hcnt; omega) hm3 hfresh3
    refine ⟨st', ?_, ?_, fun hcon => absurd hcon (by simp), ?_⟩
    · rw [show processFiles hd now st (f :: rest) count done written =
          processFiles hd now st3 rest (count + 1) (done ++ [multerRecord F (m + 1) f])
            (written ++ [(pathJoin "uploads" F, assignedName (m + 1) f)]) from by
        simp [processFiles, hstep]]
      rw [heq]
      simp [assignedNames, multerRecords]
    · rw [hdisk, hdisk3]
      simp [assignedNames]
    · intro _
      by_cases hr : rest = []
      · subst hr
        rw [hnil rfl]
        refine ⟨(getUploadSession st (headerOr hd.xSessionId "default")
          hd.xUploadFolder now).2, ?_, hfolder⟩
        rw [hsess3]
        exact mapGet_mapSet_self _ _ _
      · exact hsess hr

/-- C1 (amended): for a batch of k image files (each within the size
limit, k between 1 and 20) ingested for a session whose destination
folder holds n files named with the image_ prefix, provided none of the
names image_<n+1><ext_1>, ..., image_<n+k><ext_k> already exists in
that folder (so no write overwrites an existing file and stalls the
fresh per-file directory scan), the i-th file of the batch is stored
under image_<n+i><ext_i> in request order, and the folder afterwards
holds exactly the old files followed by these new names. -/
theorem upload_sequential_naming (st : ServerState) (hd : Headers)
    (files : List IncomingFile) (now : DateTime)
    (hgood : ∀ f ∈ files, jsStartsWith f.mimetype "image/" = true ∧ f.size ≤ 10 * 1024 * 1024)
    (hne : files ≠ []) (hlen : files.length ≤ 20)
    (hfresh : ∀ name ∈ assignedNames
        (imageCount st (pathJoin "uploads" (uploadTargetFolder st hd now))) files,
      name ∉ readdirD st (pathJoin "uploads" (uploadTargetFolder st hd now))) :
    (postUpload st hd files now).2.status = 200 ∧
    (postUpload st hd files now).2.files.map (fun r => r.filename) =
      assignedNames (imageCount st (pathJoin "uploads" (uploadTargetFolder st hd now))) files ∧
    readdirD (postUpload st hd files now).1
        (pathJoin "uploads" (uploadTargetFolder st hd now)) =
      readdirD st (pathJoin "uploads" (uploadTargetFolder st hd now)) ++
        assignedNames (imageCount st (pathJoin "uploads" (uploadTargetFolder st hd now))) files := by
  obtain ⟨st', heq, hdisk, _, hsess⟩ := processFiles_naming hd now
    (uploadTargetFolder st hd now) files st 0 [] []
    (imageCount st (pathJoin "uploads" (uploadTargetFolder st hd now))) rfl hgood
    (by omega) rfl hfresh
  obtain ⟨sess, hget, hfold⟩ := hsess hne
  have hndne : multerRecords (uploadTargetFolder st hd now)
      (imageCount st (pathJoin "uploads" (uploadTargetFolder st hd now))) files ≠ [] := by
    cases files with
    | nil => exact absurd rfl hne
    | cons a b => simp [multerRecords]
  obtain ⟨hst200, _, _, _, hrfiles, _, hdiskeq⟩ :=
    postUpload_ok_spec st hd now files st' _ _ sess heq hndne hget
  refine ⟨hst200, ?_, ?_⟩
  · rw [hrfiles, List.map_map]
    have := multerRecords_filenames (uploadTargetFolder st hd now) files
      (imageCount st (pathJoin "uploads" (uploadTargetFolder st hd now)))
    simpa [Function.comp] using this
  · have hrd : readdirD (postUpload st hd files now).1
        (pathJoin "uploads" (uploadTargetFolder st hd now)) =
        readdirD st' (pathJoin "uploads" (uploadTargetFolder st hd now)) := by
      unfold readdirD
      rw [hdiskeq]
    rw [hrd, hdisk]

/-- C1 witness: a batch of three image files into a session with an
empty folder is stored as image_1.png, image_2.jpg, image_3.webp in
request order. -/
theorem upload_sequential_naming_witness :
    (postUpload ⟨[("s1", ⟨"F", [], 0, 0⟩)], [], []⟩ ⟨some "s1", none⟩
      [⟨"a.png", "image/png", 5⟩, ⟨"b.jpg", "image/jpeg", 6⟩, ⟨"c.webp", "image/webp", 7⟩]
      ⟨1000, 2024, 0, 2, 3, 4, 5, 6⟩).2.status = 200 ∧
    (postUpload ⟨[("s1", ⟨"F", [], 0, 0⟩)], [], []⟩ ⟨some "s1", none⟩
      [⟨"a.png", "image/png", 5⟩, ⟨"b.jpg", "image/jpeg", 6⟩, ⟨"c.webp", "image/webp", 7⟩]
      ⟨1000, 2024, 0, 2, 3, 4, 5, 6⟩).2.files.map (fun r => r.filename) =
      ["image_1.png", "image_2.jpg", "image_3.webp"] := by
  have h := upload_sequential_naming ⟨[("s1", ⟨"F", [], 0, 0⟩)], [], []⟩ ⟨some "s1", none⟩
    [⟨"a.png", "image/png", 5⟩, ⟨"b.jpg", "image/jpeg", 6⟩, ⟨"c.webp", "image/webp", 7⟩]
    ⟨1000, 2024, 0, 2, 3, 4, 5, 6⟩ (by decide) (by decide) (by decide) (by decide)
  refine ⟨h.1, ?_⟩
  rw [h.2.1]
  decide

/-- C1 counterexample: a folder holding image_1.png and image_3.png has
n = 2 image_-prefixed files; uploading two .png images, the first write
overwrites image_3.png, the scan before the second file still counts 2,
and the second file is also stored as image_3.png — not the image_4.png
the claim requires for i = 2. -/
theorem upload_sequential_naming_cex :
    ((readdirD ⟨[("s1", ⟨"F", [], 0, 0⟩)], [("uploads/F", ["image_1.png", "image_3.png"])], []⟩
        "uploads/F").filter (fun g => jsStartsWith g "image_")).length = 2 ∧
    (postUpload ⟨[("s1", ⟨"F", [], 0, 0⟩)],
        [("uploads/F", ["image_1.png", "image_3.png"])], []⟩ ⟨some "s1", none⟩
      [⟨"a.png", "image/png", 5⟩, ⟨"b.png", "image/png", 6⟩]
      ⟨1000, 2024, 0, 2, 3, 4, 5, 6⟩).2.files.map (fun r => r.filename) =
      ["image_3.png", "image_3.png"] ∧
    (["image_3.png", "image_3.png"] : List String) ≠ ["image_3.png", "image_4.png"] := by
  refine ⟨by decide, ?_, by decide⟩
  decide
